import Mathlib

/-!
Verification of the esp-idf-diag recipe pipeline (`esp_idf_diag/diag.py`)
against its natural-language specification.

The embedding models POSIX paths (as handled by Python's `pathlib`),
the YAML value universe produced by `yaml.safe_load`, the recipe
validator `validate_recipe`, the output path resolver `get_output_path`,
the command executors (`cmd_env`, `cmd_exec` file writing, `cmd_glob`
copying with collision suffixes, `get_latest_modified_file`), and the
redaction engine `redact_files`.  File systems are modelled as explicit
association lists from absolute paths to file contents, and each
side-effecting function becomes a state-passing function on that model.
-/

set_option autoImplicit false

namespace Diag

/-! ## POSIX path model (Python `pathlib.PurePosixPath`)

A path is an absolute/relative flag plus a list of components.  Parsing a
string splits on `/`, dropping empty components and `.` (as `pathlib`
does).  Joining with an absolute right operand replaces the left operand,
as `Path.__truediv__` does. -/

/-- Kernel-computable `s.startswith(pat)` (Python)/`String.startsWith`. -/
def strStartsWith (s pat : String) : Bool :=
  pat.data.isPrefixOf s.data

/-- Kernel-computable `s.endswith(pat)` (Python)/`String.endsWith`. -/
def strEndsWith (s pat : String) : Bool :=
  pat.data.isSuffixOf s.data

/-- `str.split('/')` on the character list: split at every separator,
keeping empty pieces (they are filtered away by `parsePath`). -/
def splitOnSlash : List Char → List (List Char)
  | [] => [[]]
  | c :: rest =>
    match splitOnSlash rest with
    | [] => [[]]
    | h :: t => if c = '/' then [] :: h :: t else (c :: h) :: t

structure PathM where
  isAbs : Bool
  comps : List String
deriving DecidableEq, Repr

/-- Python `pathlib.Path(s)` for a POSIX path string. -/
def parsePath (s : String) : PathM :=
  ⟨strStartsWith s "/",
   ((splitOnSlash s.data).map (fun l => String.mk l)).filter (fun c => !(c == "" || c == "."))⟩

/-- Python `p / q` on parsed paths: an absolute right operand replaces `p`. -/
def pathJoin (p q : PathM) : PathM :=
  if q.isAbs then q else ⟨p.isAbs, p.comps ++ q.comps⟩

/-- Python `p / s` where `s` is a string. -/
def pathJoinStr (p : PathM) (s : String) : PathM :=
  pathJoin p (parsePath s)

/-- Python `Path.name`: the final component, or `""` for a bare root. -/
def pathName (p : PathM) : String :=
  p.comps.getLast?.getD ""

/-- Python `Path.with_name`: replace the final component.  (`pathlib`
raises for a path without a name; callers only use it on file paths.) -/
def withName (p : PathM) (n : String) : PathM :=
  ⟨p.isAbs, p.comps.dropLast ++ [n]⟩

/-- Python `Path(p).relative_to(root)`: `some` of the component suffix when
`root` is a prefix of `p`, `none` when `relative_to` raises `ValueError`. -/
def relativeTo (p root : PathM) : Option (List String) :=
  if p.isAbs == root.isAbs && root.comps.isPrefixOf p.comps then
    some (p.comps.drop root.comps.length)
  else
    none

/-! ## YAML values (`yaml.safe_load` output) -/

/-- The YAML value universe relevant to recipes.  Dictionary keys are
strings (recipe/purge files use string keys throughout). -/
inductive YVal where
  | ynull  : YVal
  | ybool  : Bool → YVal
  | yint   : Int → YVal
  | ystr   : String → YVal
  | ylist  : List YVal → YVal
  | ydict  : List (String × YVal) → YVal

/-- Python truthiness of a YAML value (`if v:`). -/
def truthy : YVal → Bool
  | .ynull => false
  | .ybool b => b
  | .yint n => n != 0
  | .ystr s => s != ""
  | .ylist l => !l.isEmpty
  | .ydict d => !d.isEmpty

/-- Python `d.get(k)` on a dict, returning `None` when absent.  The
callers in `diag.py` only invoke `.get` on values already known to be
dicts; on non-dicts Python would raise `AttributeError`. -/
def yget : YVal → String → YVal
  | .ydict kvs, k => (((kvs.find? (fun kv => kv.1 == k)).map Prod.snd).getD .ynull)
  | _, _ => .ynull

/-- `isinstance(v, str)`. -/
def isStrV : YVal → Bool
  | .ystr _ => true
  | _ => false

/-- `isinstance(v, list)`. -/
def isListV : YVal → Bool
  | .ylist _ => true
  | _ => false

/-- `isinstance(v, int)`.  Python `bool` is a subclass of `int`, so
booleans satisfy this check as well. -/
def isIntV : YVal → Bool
  | .yint _ => true
  | .ybool _ => true
  | _ => false

/-- `isinstance(v, bool)`. -/
def isBoolV : YVal → Bool
  | .ybool _ => true
  | _ => false

/-! ## The output path resolver (`get_output_path`) -/

/-- The staging report root `TMP_DIR_REPORT_PATH` (a fresh temporary
directory at runtime; its concrete name is irrelevant to every property,
so it is fixed here). -/
def TMP_DIR_REPORT_PATH : PathM :=
  ⟨true, ["tmp", "report"]⟩

/-- Truthiness filter for an optional string argument: Python treats a
missing argument (`None`) and an empty string alike as falsy. -/
def optTruthy : Option String → Option String
  | some s => if s == "" then none else some s
  | none => none

/-- The `output` value of a step or recipe when it is a truthy string.
Validated recipes only carry strings here; a non-string truthy value
would make Python's `/` raise `TypeError`. -/
def strOfTruthy (v : YVal) : Option String :=
  match v with
  | .ystr s => if s == "" then none else some s
  | _ => none

/-- `get_output_path(src, dst, step, recipe, src_root)` from `diag.py`.
`Except.error` models the `ValueError` that `Path(src).relative_to(src_root)`
raises when `src` does not lie under `src_root`. -/
def get_output_path (src dst : Option String) (step recipe : YVal)
    (src_root : Option String) : Except String PathM :=
  let p0 := TMP_DIR_REPORT_PATH
  let p1 := match strOfTruthy (yget recipe "output") with
    | some r => pathJoinStr p0 r
    | none => p0
  let p2 := match strOfTruthy (yget step "output") with
    | some r => pathJoinStr p1 r
    | none => p1
  match optTruthy dst with
  | some d =>
    let p3 := pathJoinStr p2 d
    if strEndsWith d "/" then
      match optTruthy src with
      | some s =>
        match optTruthy src_root with
        | some r =>
          match relativeTo (parsePath s) (parsePath r) with
          | some rel => .ok ⟨p3.isAbs, p3.comps ++ rel⟩
          | none => .error "ValueError: src is not in the subpath of src_root"
        | none => .ok (pathJoinStr p3 (pathName (parsePath s)))
      | none => .ok p3
    else
      .ok p3
  | none =>
    match optTruthy src with
    | some s => .ok (pathJoinStr p2 (pathName (parsePath s)))
    | none => .ok p2

/-! ## Recipe validation (`validate_recipe`)

Error strings reproduce the Python `RuntimeError` messages, including the
`str()` rendering of key lists (`['a', 'b']`).  Where Python would raise a
non-`RuntimeError` exception (`AttributeError`/`TypeError` on non-dict
structures, paths its callers treat identically to a validation failure),
the model returns an `Except.error` with a descriptive message.  Regular
expression compilation (`re.compile`) is abstracted by a parameter
`recompile : String → Option String` returning `none` on success and the
regex engine's error text on failure. -/

def recipe_keys : List String := ["description", "tags", "output", "steps"]

def step_keys : List String := ["name", "cmds", "output", "system", "port"]

def cmd_exec_keys : List String := ["exec", "cmd", "output", "stderr", "timeout", "append"]

def cmd_file_keys : List String := ["file", "path", "output"]

def cmd_env_keys : List String := ["env", "vars", "regex", "output", "append"]

def cmd_glob_keys : List String := ["glob", "pattern", "path", "regex", "mtime", "recursive", "relative", "output"]

/-- Python `str()` of a list of strings: `['a', 'b']`. -/
def pyListRepr (l : List String) : String :=
  "[" ++ String.intercalate ", " (l.map (fun s => "\x27" ++ s ++ "\x27")) ++ "]"

/-- Python `repr()` of a YAML value (as embedded in f-string renderings of
lists and dicts). -/
def yvalRepr : YVal → String
  | .ynull => "None"
  | .ybool true => "True"
  | .ybool false => "False"
  | .yint n => toString n
  | .ystr s => "\x27" ++ s ++ "\x27"
  | .ylist l => "[" ++ String.intercalate ", " (l.attach.map (fun x => yvalRepr x.1)) ++ "]"
  | .ydict kvs =>
      "\x7b" ++
        String.intercalate ", "
          (kvs.attach.map (fun x => "\x27" ++ x.1.1 ++ "\x27: " ++ yvalRepr x.1.2)) ++
        "\x7d"
decreasing_by
  · rcases x with ⟨v, hm⟩
    have := List.sizeOf_lt_of_mem hm
    simp_wf
    omega
  · rcases x with ⟨⟨k, v⟩, hm⟩
    have h := List.sizeOf_lt_of_mem hm
    simp only [Prod.mk.sizeOf_spec] at h
    simp_wf
    omega

/-- Python `str()` of a YAML value: like `repr()` except that a plain
string renders without quotes. -/
def pyStr (v : YVal) : String :=
  match v with
  | .ystr s => s
  | _ => yvalRepr v

/-- `s` extracted from a value known (by a prior `isinstance` check) to be
a string. -/
def strOf (v : YVal) : String :=
  match v with
  | .ystr s => s
  | _ => ""

/-- Substring membership, Python `pat in s` for strings. -/
def strContains (s pat : String) : Bool :=
  (List.range (s.data.length + 1)).any (fun i => pat.data.isPrefixOf (s.data.drop i))

/-- `if cond: raise RuntimeError(msg)`. -/
def chkErr (cond : Bool) (msg : String) : Except String Unit :=
  if cond then .error msg else .ok ()

/-- Run a check over a list, stopping at the first failure — the shape of
every `for … : if … : raise` loop in the validator. -/
def firstErr {α : Type} : List α → (α → Except String Unit) → Except String Unit
  | [], _ => .ok ()
  | a :: l, f =>
    match f a with
    | .ok _ => firstErr l f
    | .error e => .error e

def msgUnknownRecipeKey (k : String) : String :=
  "Unknown recipe key \"" ++ k ++ "\", expecting \"" ++ pyListRepr recipe_keys ++ "\""

def msgUnknownStepKey (k : String) : String :=
  "Unknown recipe step key \"" ++ k ++ "\", expecting \"" ++ pyListRepr step_keys ++ "\""

def msgUnknownArg (variant k sname : String) (keys : List String) : String :=
  "Unknown \"" ++ variant ++ "\" command argument \"" ++ k ++ "\" in step \"" ++ sname ++
    "\", expecting \"" ++ pyListRepr keys ++ "\""

def msgMissingArg (variant arg sname : String) : String :=
  "Command \"" ++ variant ++ "\" in step \"" ++ sname ++ "\" is missing \"" ++ arg ++ "\" argument"

def msgArgType (arg variant sname ty : String) : String :=
  "Argument \"" ++ arg ++ "\" for command \"" ++ variant ++ "\" in step \"" ++ sname ++
    "\" is not of type \"" ++ ty ++ "\""

/-- The `file` command's `output` type message; the source's f-string
concatenation yields a doubled space before the step name. -/
def msgFileOutputType (sname : String) : String :=
  "Argument \"output\" for command \"file\" in step  \"" ++ sname ++ "\" is not of type \"str\""

def msgListEntry (entry argname variant sname : String) : String :=
  "List entry \"" ++ entry ++ "\" in \"" ++ argname ++ "\" argument for command \"" ++ variant ++
    "\" in step \"" ++ sname ++ "\" is not of type \"str\""

def msgExecNotListOrStr (sname : String) : String :=
  "Command \"exec\" in step \"" ++ sname ++ "\" is not of type \"list\" or \"str\""

def msgEnvMissingBoth (sname : String) : String :=
  "Command \"env\" in step \"" ++ sname ++ "\" is missing both \"vars\" and \"regex\" arguments"

def msgRegexInvalid (variant sname e : String) : String :=
  "Argument \"regex\" for command \"" ++ variant ++ "\" in step \"" ++ sname ++
    "\" is not a valid regular expression: " ++ e

def msgUnknownSystem (s : String) : String :=
  "Unknown \"system\" key value \"" ++ s ++ "\", expecting \"Linux\", \"Windows\" or \"Darwin\""

def msgUnknownCmd (rendered sname : String) : String :=
  "Unknown command \"" ++ rendered ++ "\" in step \"" ++ sname ++ "\""

/-- Validation of a single command dict (the body of the
`for cmd in step_cmds` loop of `validate_recipe`). -/
def validate_cmd (recompile : String → Option String) (sname : String) (cmd : YVal) :
    Except String Unit :=
  match cmd with
  | .ydict kvs =>
    if kvs.any (fun kv => kv.1 == "exec") then do
      let c := yget cmd "cmd"
      let output := yget cmd "output"
      let stderrv := yget cmd "stderr"
      let tmo := yget cmd "timeout"
      let app := yget cmd "append"
      firstErr kvs (fun kv =>
        chkErr (!cmd_exec_keys.contains kv.1) (msgUnknownArg "exec" kv.1 sname cmd_exec_keys))
      chkErr (!truthy c) (msgMissingArg "exec" "cmd" sname)
      (match c with
       | .ylist l =>
           firstErr l (fun arg => chkErr (!isStrV arg) (msgListEntry (pyStr arg) "cmd" "exec" sname))
       | v => chkErr (!isStrV v) (msgExecNotListOrStr sname))
      chkErr (truthy output && !isStrV output) (msgArgType "output" "exec" sname "str")
      chkErr (truthy stderrv && !isStrV stderrv) (msgArgType "stderr" "exec" sname "str")
      chkErr (truthy tmo && !isIntV tmo) (msgArgType "timeout" "exec" sname "int")
      chkErr (truthy app && !isBoolV app) (msgArgType "append" "exec" sname "bool")
    else if kvs.any (fun kv => kv.1 == "file") then do
      let path := yget cmd "path"
      let output := yget cmd "output"
      firstErr kvs (fun kv =>
        chkErr (!cmd_file_keys.contains kv.1) (msgUnknownArg "file" kv.1 sname cmd_file_keys))
      chkErr (!truthy path) (msgMissingArg "file" "path" sname)
      chkErr (!isStrV path) (msgArgType "path" "file" sname "str")
      chkErr (truthy output && !isStrV output) (msgFileOutputType sname)
    else if kvs.any (fun kv => kv.1 == "env") then do
      let vars := yget cmd "vars"
      let regex := yget cmd "regex"
      let output := yget cmd "output"
      let app := yget cmd "append"
      firstErr kvs (fun kv =>
        chkErr (!cmd_env_keys.contains kv.1) (msgUnknownArg "env" kv.1 sname cmd_env_keys))
      chkErr (!truthy vars && !truthy regex) (msgEnvMissingBoth sname)
      (if truthy vars then do
         chkErr (!isListV vars) (msgArgType "vars" "env" sname "list")
         match vars with
         | .ylist l =>
             firstErr l (fun v => chkErr (!isStrV v) (msgListEntry (pyStr v) "vars" "env" sname))
         | _ => .ok ()
       else .ok ())
      (if truthy regex then do
         chkErr (!isStrV regex) (msgArgType "regex" "env" sname "str")
         match recompile (strOf regex) with
         | some e => .error (msgRegexInvalid "env" sname e)
         | none => .ok ()
       else .ok ())
      chkErr (truthy output && !isStrV output) (msgArgType "output" "env" sname "str")
      chkErr (truthy app && !isBoolV app) (msgArgType "append" "env" sname "bool")
    else if kvs.any (fun kv => kv.1 == "glob") then do
      let pattern := yget cmd "pattern"
      let path := yget cmd "path"
      let regex := yget cmd "regex"
      let mtime := yget cmd "mtime"
      let recursive := yget cmd "recursive"
      let relative := yget cmd "relative"
      let output := yget cmd "output"
      firstErr kvs (fun kv =>
        chkErr (!cmd_glob_keys.contains kv.1) (msgUnknownArg "glob" kv.1 sname cmd_glob_keys))
      chkErr (!truthy pattern) (msgMissingArg "glob" "pattern" sname)
      chkErr (!isStrV pattern) (msgArgType "pattern" "glob" sname "str")
      chkErr (!truthy path) (msgMissingArg "glob" "path" sname)
      chkErr (!isStrV path) (msgArgType "path" "glob" sname "str")
      (if truthy regex then do
         chkErr (!isStrV regex) (msgArgType "regex" "glob" sname "str")
         match recompile (strOf regex) with
         | some e => .error (msgRegexInvalid "glob" sname e)
         | none => .ok ()
       else .ok ())
      chkErr (truthy mtime && !isBoolV mtime) (msgArgType "mtime" "glob" sname "bool")
      chkErr (truthy recursive && !isBoolV recursive) (msgArgType "recursive" "glob" sname "bool")
      chkErr (truthy relative && !isBoolV relative) (msgArgType "relative" "glob" sname "bool")
      chkErr (truthy output && !isStrV output) (msgArgType "output" "glob" sname "str")
    else
      .error (msgUnknownCmd (pyStr cmd) sname)
  | .ystr s =>
      -- Python `'exec' in cmd` on a string is a substring test; a hit
      -- leads to `cmd.get(...)`, raising AttributeError, otherwise the
      -- final `Unknown command` error is raised.
      if strContains s "exec" || strContains s "file" || strContains s "env" ||
          strContains s "glob" then
        .error "AttributeError: str object has no attribute get"
      else
        .error (msgUnknownCmd s sname)
  | .ylist l =>
      -- Python `'exec' in cmd` on a list is element membership.
      if l.any (fun v =>
          match v with
          | .ystr s => s == "exec" || s == "file" || s == "env" || s == "glob"
          | _ => false) then
        .error "AttributeError: list object has no attribute get"
      else
        .error (msgUnknownCmd (pyStr (.ylist l)) sname)
  | v =>
      -- Python `'exec' in cmd` raises TypeError for non-iterable values.
      .error ("TypeError: argument of type " ++ pyStr v ++ " is not iterable")

/-- Validation of a single step of a recipe (the body of the
`for step in recipe_steps` loop of `validate_recipe`). -/
def validate_step (recompile : String → Option String) (step : YVal) : Except String Unit :=
  match step with
  | .ydict kvs => do
      firstErr kvs (fun kv => chkErr (!step_keys.contains kv.1) (msgUnknownStepKey kv.1))
      let step_name := yget step "name"
      let step_output := yget step "output"
      let step_cmds := yget step "cmds"
      let step_system := yget step "system"
      let step_port := yget step "port"
      chkErr (!truthy step_name) "Recipe step is missing \"name\" key"
      chkErr (!isStrV step_name) "Recipe step \"name\" key is not of type \"str\""
      let sname := strOf step_name
      chkErr (!truthy step_cmds) "Recipe step is missing \"cmds\" key"
      chkErr (!isListV step_cmds) "Recipe step \"cmds\" key is not of type \"list\""
      chkErr (truthy step_output && !isStrV step_output) "Step \"output\" key is not of type \"str\""
      (if truthy step_system then do
         chkErr (!isStrV step_system) "Step \"system\" key is not of type \"str\""
         chkErr (!(["Linux", "Windows", "Darwin"].contains (strOf step_system)))
           (msgUnknownSystem (strOf step_system))
       else .ok ())
      chkErr (truthy step_port && !isBoolV step_port) "Step \"port\" key is not of type \"bool\""
      match step_cmds with
      | .ylist cmds => firstErr cmds (validate_cmd recompile sname)
      | _ => .ok ()   -- unreachable: `isListV step_cmds` was checked above
  | _ =>
      -- Python iterates a non-dict step (raising for its first pseudo-key
      -- or on the following `.get`); every non-dict step fails.
      .error "Recipe step is not of type \"dict\""

/-- `validate_recipe` from `diag.py`. -/
def validate_recipe (recompile : String → Option String) (recipe : YVal) :
    Except String Unit :=
  match recipe with
  | .ydict kvs => do
      firstErr kvs (fun kv => chkErr (!recipe_keys.contains kv.1) (msgUnknownRecipeKey kv.1))
      let rdesc := yget recipe "description"
      let rtags := yget recipe "tags"
      let routput := yget recipe "output"
      let rsteps := yget recipe "steps"
      chkErr (!truthy rdesc) "Recipe is missing \"description\" key"
      chkErr (!isStrV rdesc) "Recipe \"description\" key is not of type \"str\""
      (if truthy rtags then do
         chkErr (!isListV rtags) "Recipe \"tags\" key is not of type \"list\""
         match rtags with
         | .ylist l =>
             firstErr l (fun t =>
               chkErr (!isStrV t) ("Recipe tag value \"" ++ pyStr t ++ "\" is not of type \"str\""))
         | _ => .ok ()
       else .ok ())
      chkErr (truthy routput && !isStrV routput) "Recipe \"output\" key is not of type \"str\""
      chkErr (!truthy rsteps) "Recipe is missing \"steps\" key"
      chkErr (!isListV rsteps) "Recipe \"steps\" key is not of type \"list\""
      match rsteps with
      | .ylist steps => firstErr steps (validate_step recompile)
      | _ => .ok ()   -- unreachable: `isListV rsteps` was checked above
  | _ =>
      -- Python iterates a non-dict recipe (raising for its first
      -- pseudo-key or on the following `.get`); every non-dict fails.
      .error "Recipe is not of type \"dict\""

/-! ## File-system model for the executors

The staging tree is an association list from absolute paths to file
contents; `lookupFile` returns the first binding, `setFile` overwrites an
existing binding in place or appends a new one.  Directories need not be
modelled: every `mkdir(parents=True, exist_ok=True)` is a no-op here. -/

/-- The report-tree state written by the executors. -/
abbrev FS : Type := List (PathM × String)

/-- The content of the file at `p`, if one exists. -/
def lookupFile (fs : FS) (p : PathM) : Option String :=
  (fs.find? (fun e => e.1 == p)).map Prod.snd

/-- Does a file exist at `p` (Python `Path.is_file()` on the staging
tree)? -/
def existsFile (fs : FS) (p : PathM) : Bool :=
  fs.any (fun e => e.1 == p)

/-- Write `c` to `p`, truncating an existing file or creating a new one. -/
def setFile : FS → PathM → String → FS
  | [], p, c => [(p, c)]
  | e :: fs, p, c => if e.1 == p then (p, c) :: fs else e :: setFile fs p c

/-- `open(path, 'a' if append else 'w'); f.write(content)`: truncate-write
or append to the (possibly absent) existing content. -/
def writeMode (fs : FS) (p : PathM) (content : String) (append : Bool) : FS :=
  if append then setFile fs p ((lookupFile fs p).getD "" ++ content)
  else setFile fs p content

/-! ## The env executor (`cmd_env`)

The process environment is a list of `NAME, VALUE` pairs (unique names in
a real process environment).  The compiled regex is abstracted as the
anchored match predicate `regex.match`, `none` when no `regex` argument
was given. -/

/-- The selection loop of `cmd_env`: `found_list` in source order. -/
def envScan (env : List (String × String)) (vlist : List String)
    (rmatch : Option (String → Bool)) : List String :=
  match env with
  | [] => []
  | (var, _) :: rest =>
    if vlist.contains var then var :: envScan rest vlist rmatch
    else
      match rmatch with
      | none => envScan rest vlist rmatch
      | some f =>
        if f var then var :: envScan rest vlist rmatch
        else envScan rest vlist rmatch

/-- `os.environ[var]` for a name found in `env`. -/
def lookupEnv (env : List (String × String)) (v : String) : String :=
  ((env.find? (fun e => e.1 == v)).map Prod.snd).getD ""

/-- The `NAME=VALUE` lines of `cmd_env`, joined by newlines. -/
def cmd_env_out (env : List (String × String)) (vlist : List String)
    (rmatch : Option (String → Bool)) : String :=
  String.intercalate "\n" ((envScan env vlist rmatch).map (fun v => v ++ "=" ++ lookupEnv env v))

/-- `cmd_env` as a transformer of the staging tree: resolves the output
path and writes the joined lines only when `output` is set. -/
def cmd_env_run (fs : FS) (env : List (String × String)) (vlist : List String)
    (rmatch : Option (String → Bool)) (output : Option String) (append : Bool)
    (step recipe : YVal) : FS :=
  match optTruthy output with
  | none => fs
  | some _ =>
    match get_output_path none output step recipe none with
    | .error _ => fs   -- unreachable: with `src = None` resolution never raises
    | .ok p => writeMode fs p (cmd_env_out env vlist rmatch) append

/-! ## The exec executor's file-writing phase (`cmd_exec`)

The spawned process is abstracted as its captured `stdout`/`stderr` texts;
the claims concern only what is written to the staging tree. -/

/-- The writing tail of `cmd_exec`: stdout (then stderr) are written only
when the corresponding destination argument is set *and* the captured
text is non-empty. -/
def cmd_exec_write (fs : FS) (pStdout pStderr : String) (output stderrDst : Option String)
    (append : Bool) (step recipe : YVal) : FS :=
  let fs1 :=
    if (optTruthy output).isSome && pStdout != "" then
      match get_output_path none output step recipe none with
      | .error _ => fs   -- unreachable: with `src = None` resolution never raises
      | .ok p => writeMode fs p pStdout append
    else fs
  if (optTruthy stderrDst).isSome && pStderr != "" then
    match get_output_path none stderrDst step recipe none with
    | .error _ => fs1
    | .ok p => writeMode fs1 p pStderr append
  else fs1

/-! ## The glob executor (`cmd_glob`) -/

/-- `get_latest_modified_file`: scan with running best, starting from
`file_mtime = 0.0` and no file; a file is skipped only when its mtime is
strictly below the current best, so ties update the best.  (`st_mtime` is
a float; its order structure is modelled by `Int`.) -/
def get_latest_modified_file {α : Type} (file_paths : List (α × Int)) : Option α :=
  (file_paths.foldl
    (fun acc f => if f.2 < acc.2 then acc else (some f.1, f.2))
    ((none : Option α), (0 : Int))).1

/-- The `mtime` reduction step of `cmd_glob`: when the flag is set the
candidate list is replaced by the single most recently modified file (or
the command stops when there is none). -/
def globMtimeReduce {α : Type} (mtimeFlag : Bool) (files : List (α × Int)) :
    Option (List α) :=
  if mtimeFlag then (get_latest_modified_file files).map (fun f => [f])
  else some (files.map Prod.fst)

/-- The collision loop of `cmd_glob`: the candidate destination for
counter `cnt`, `dst_path.with_name(dst_path.name + '.' + cnt)`. -/
def suffixPath (dst : PathM) (cnt : Nat) : PathM :=
  withName dst (pathName dst ++ "." ++ toString cnt)

/-- The `while True` suffix search, run with enough fuel; returns the
first counter (from `cnt` up) whose suffixed name does not exist.  The
Python loop always terminates on a finite file system, so the fuel is
never exhausted when called with `fs.length + 1`. -/
def findFreeSuffix (fs : FS) (dst : PathM) : Nat → Nat → Option PathM
  | 0, _ => none
  | fuel + 1, cnt =>
    let cand := suffixPath dst cnt
    if existsFile fs cand then findFreeSuffix fs dst fuel (cnt + 1)
    else some cand

/-- The destination actually used for one glob copy: the resolved path if
no file exists there, otherwise the first free suffixed name. -/
def globChooseDst (fs : FS) (dst : PathM) : Option PathM :=
  if existsFile fs dst then findFreeSuffix fs dst (fs.length + 1) 1
  else some dst

/-- The copy loop of `cmd_glob` over the surviving files, given as
`(source path string, content)` pairs.  A `ValueError` escaping
`get_output_path` propagates out of the command, ending the loop. -/
def cmd_glob_copy (files : List (String × String)) (output : Option String)
    (step recipe : YVal) (src_root : Option String) (fs : FS) : FS :=
  match files with
  | [] => fs
  | (s, content) :: rest =>
    match get_output_path (some s) output step recipe src_root with
    | .error _ => fs
    | .ok dst =>
      match globChooseDst fs dst with
      | none => cmd_glob_copy rest output step recipe src_root fs
      | some d => cmd_glob_copy rest output step recipe src_root (setFile fs d content)

/-! ## The redaction engine (`redact_files`)

Paths inside the temporary tree are bare component lists (all are
absolute).  A file's content is `some text`, or `none` for a file whose
`open`/`read` raises.  Python `re.sub` is modelled for literal patterns
(patterns without regex metacharacters, as in the claims): every
non-overlapping occurrence is replaced left to right. -/

/-- One file entry of the temporary tree. -/
abbrev RPath : Type := List String

/-- The temporary directory tree: path components to (readable) content. -/
abbrev RFS : Type := List (RPath × Option String)

/-- Strict-descendant test: `rglob('*')` yields proper descendants of the
root only. -/
def isStrictUnder (root p : RPath) : Bool :=
  root.isPrefixOf p && decide (root.length < p.length)

/-- `p.relative_to(root)` for a descendant. -/
def relUnder (root p : RPath) : RPath :=
  p.drop root.length

def lookupR (fs : RFS) (p : RPath) : Option (Option String) :=
  (fs.find? (fun e => e.1 == p)).map Prod.snd

def setFileR : RFS → RPath → Option String → RFS
  | [], p, c => [(p, c)]
  | e :: fs, p, c => if e.1 == p then (p, c) :: fs else e :: setFileR fs p c

/-- Replace every non-overlapping occurrence of `pat` in the input, left
to right (`re.sub` for a literal, non-empty pattern).  The fuel argument
(instantiated with the input length, which bounds the number of steps)
keeps the recursion structural and kernel-computable. -/
def subChars (pat repl : List Char) : Nat → List Char → List Char
  | 0, l => l
  | _ + 1, [] => []
  | fuel + 1, c :: rest =>
    if pat ≠ [] ∧ pat.isPrefixOf (c :: rest) then
      repl ++ subChars pat repl fuel ((c :: rest).drop pat.length)
    else
      c :: subChars pat repl fuel rest

/-- `regex.sub(repl, data)` for a literal pattern. -/
def pySubLit (pat repl data : String) : String :=
  ⟨subChars pat.data repl.data data.data.length data.data⟩

/-- The per-file substitution chain: each purge entry applied, in order,
to the accumulated result. -/
def applyPurge (purge : List (String × String)) (data : String) : String :=
  purge.foldl (fun d pr => pySubLit pr.1 pr.2 d) data

/-- The walk of `redact_files` over the source files (in `rglob` order).
Per file, the destination is opened for writing (created/truncated)
before the source is read; an unreadable source therefore leaves an empty
mirror file and the exception aborts the walk (there is no per-file
handler).  The boolean result records whether the walk raised. -/
def redactWalk (walk : List (RPath × Option String)) (d1 d2 : RPath)
    (purge : List (String × String)) (fs : RFS) : RFS × Bool :=
  match walk with
  | [] => (fs, false)
  | (p, oc) :: rest =>
    let mp := d2 ++ relUnder d1 p
    match oc with
    | none => (setFileR fs mp (some ""), true)
    | some data =>
        redactWalk rest d1 d2 purge (setFileR fs mp (some (applyPurge purge data)))

/-- `redact_files(dir1, dir2, purge)` as a transformer of the temporary
tree: walk every regular file under `d1` and write the substituted text
to the mirrored path under `d2`.  (The trailing `diff_dirs` call only
reads and logs.) -/
def redact_files (fs : RFS) (d1 d2 : RPath) (purge : List (String × String)) : RFS × Bool :=
  redactWalk (fs.filter (fun e => isStrictUnder d1 e.1)) d1 d2 purge fs

/-! ## Derived definitions used by the claim statements -/

/-- The composed output root of `get_output_path`: report root, then
`recipe['output']` if present, then `step['output']` if present. -/
def composedRoot (step recipe : YVal) : PathM :=
  let p1 := match strOfTruthy (yget recipe "output") with
    | some r => pathJoinStr TMP_DIR_REPORT_PATH r
    | none => TMP_DIR_REPORT_PATH
  match strOfTruthy (yget step "output") with
  | some r => pathJoinStr p1 r
  | none => p1

/-- `regex.match(var)` as a boolean, `false` when no regex was given. -/
def rmatchB (rmatch : Option (String → Bool)) (v : String) : Bool :=
  match rmatch with
  | none => false
  | some f => f v

/-- Modelled from the spec (§3 data model): a well-formed command variant —
a dict discriminated by its variant key, with only that variant's keys,
its required fields present (and truthy, as the validator's requiredness
is truthiness), and every optional field of the declared type.
`rcOk pat` states that `pat` compiles as a regex. -/
def wfOptStr (v : YVal) : Bool :=
  match v with
  | .ynull => true
  | .ystr _ => true
  | _ => false

/-- Modelled from the spec: an optional boolean field. -/
def wfOptBool (v : YVal) : Bool :=
  match v with
  | .ynull => true
  | .ybool _ => true
  | _ => false

/-- Modelled from the spec (§3): well-formedness of one command. -/
def wellFormedCmd (rcOk : String → Bool) (cmd : YVal) : Bool :=
  match cmd with
  | .ydict kvs =>
    if kvs.any (fun kv => kv.1 == "exec") then
      kvs.all (fun kv => cmd_exec_keys.contains kv.1) &&
      (match yget cmd "cmd" with
       | .ystr s => s != ""
       | .ylist l => !l.isEmpty && l.all isStrV
       | _ => false) &&
      wfOptStr (yget cmd "output") && wfOptStr (yget cmd "stderr") &&
      (match yget cmd "timeout" with
       | .ynull => true
       | .yint n => decide (0 < n)
       | _ => false) &&
      wfOptBool (yget cmd "append")
    else if kvs.any (fun kv => kv.1 == "file") then
      kvs.all (fun kv => cmd_file_keys.contains kv.1) &&
      (match yget cmd "path" with
       | .ystr s => s != ""
       | _ => false) &&
      wfOptStr (yget cmd "output")
    else if kvs.any (fun kv => kv.1 == "env") then
      kvs.all (fun kv => cmd_env_keys.contains kv.1) &&
      (match yget cmd "vars" with
       | .ynull => true
       | .ylist l => l.all isStrV
       | _ => false) &&
      (match yget cmd "regex" with
       | .ynull => true
       | .ystr r => r == "" || rcOk r
       | _ => false) &&
      (truthy (yget cmd "vars") || truthy (yget cmd "regex")) &&
      wfOptStr (yget cmd "output") && wfOptBool (yget cmd "append")
    else if kvs.any (fun kv => kv.1 == "glob") then
      kvs.all (fun kv => cmd_glob_keys.contains kv.1) &&
      (match yget cmd "pattern" with
       | .ystr s => s != ""
       | _ => false) &&
      (match yget cmd "path" with
       | .ystr s => s != ""
       | _ => false) &&
      (match yget cmd "regex" with
       | .ynull => true
       | .ystr r => r == "" || rcOk r
       | _ => false) &&
      wfOptBool (yget cmd "mtime") && wfOptBool (yget cmd "recursive") &&
      wfOptBool (yget cmd "relative") && wfOptStr (yget cmd "output")
    else
      false
  | _ => false

/-- Modelled from the spec (§3): well-formedness of one step. -/
def wellFormedStep (rcOk : String → Bool) (step : YVal) : Bool :=
  match step with
  | .ydict kvs =>
    kvs.all (fun kv => step_keys.contains kv.1) &&
    (match yget step "name" with
     | .ystr s => s != ""
     | _ => false) &&
    (match yget step "cmds" with
     | .ylist l => !l.isEmpty && l.all (wellFormedCmd rcOk)
     | _ => false) &&
    wfOptStr (yget step "output") &&
    (match yget step "system" with
     | .ynull => true
     | .ystr s => s == "Linux" || s == "Windows" || s == "Darwin"
     | _ => false) &&
    wfOptBool (yget step "port")
  | _ => false

/-- Modelled from the spec (§3): a well-formed recipe — a `description`,
optional string tags and output directory, and a non-empty list of
well-formed steps. -/
def wellFormedRecipe (rcOk : String → Bool) (recipe : YVal) : Bool :=
  match recipe with
  | .ydict kvs =>
    kvs.all (fun kv => recipe_keys.contains kv.1) &&
    (match yget recipe "description" with
     | .ystr s => s != ""
     | _ => false) &&
    (match yget recipe "tags" with
     | .ynull => true
     | .ylist l => l.all isStrV
     | _ => false) &&
    wfOptStr (yget recipe "output") &&
    (match yget recipe "steps" with
     | .ylist l => !l.isEmpty && l.all (wellFormedStep rcOk)
     | _ => false)
  | _ => false

/-- A minimal well-formed exec command. -/
def sampleCmd : YVal := .ydict [("exec", .ynull), ("cmd", .ystr "ls")]

/-- A minimal well-formed step. -/
def sampleStep : YVal := .ydict [("name", .ystr "main"), ("cmds", .ylist [sampleCmd])]

/-- A minimal well-formed recipe. -/
def sampleRecipe : YVal := .ydict [("description", .ystr "sample"), ("steps", .ylist [sampleStep])]

/-- The sample recipe with one extra top-level key `k`. -/
def recipeWithTopKey (k : String) : YVal :=
  .ydict [("description", .ystr "sample"), ("steps", .ylist [sampleStep]), (k, .ynull)]

/-- The sample step with one extra key `k`. -/
def stepWithKey (k : String) : YVal :=
  .ydict [("name", .ystr "main"), ("cmds", .ylist [sampleCmd]), (k, .ynull)]

/-- A recipe whose only step carries one extra key `k`. -/
def recipeWithStepKey (k : String) : YVal :=
  .ydict [("description", .ystr "sample"), ("steps", .ylist [stepWithKey k])]

/-- A recipe whose only step holds the single command `cmd`. -/
def recipeWithCmd (cmd : YVal) : YVal :=
  .ydict [("description", .ystr "sample"),
          ("steps", .ylist [.ydict [("name", .ystr "main"), ("cmds", .ylist [cmd])]])]

/-- An exec command with one extra key `k`. -/
def execCmdWithKey (k : String) : YVal :=
  .ydict [("exec", .ynull), ("cmd", .ystr "ls"), (k, .ynull)]

/-- A file command with one extra key `k`. -/
def fileCmdWithKey (k : String) : YVal :=
  .ydict [("file", .ynull), ("path", .ystr "/a"), (k, .ynull)]

/-- An env command with one extra key `k`. -/
def envCmdWithKey (k : String) : YVal :=
  .ydict [("env", .ynull), ("vars", .ylist [.ystr "FOO"]), (k, .ynull)]

/-- A glob command with one extra key `k`. -/
def globCmdWithKey (k : String) : YVal :=
  .ydict [("glob", .ynull), ("pattern", .ystr "*"), ("path", .ystr "/a"), (k, .ynull)]

/-- An exec command whose `timeout` argument is `t`. -/
def execCmdTimeout (t : YVal) : YVal :=
  .ydict [("exec", .ynull), ("cmd", .ystr "ls"), ("timeout", t)]

/-! ## Helper lemmas -/

theorem pathJoin_rel (p q : PathM) (h : q.isAbs = false) :
    pathJoin p q = ⟨p.isAbs, p.comps ++ q.comps⟩ := by
  simp [pathJoin, h]

theorem parsePath_isAbs (s : String) : (parsePath s).isAbs = strStartsWith s "/" := rfl

theorem pathJoinStr_rel (p : PathM) (s : String) (h : strStartsWith s "/" = false) :
    pathJoinStr p s = ⟨p.isAbs, p.comps ++ (parsePath s).comps⟩ := by
  simp [pathJoinStr, pathJoin, parsePath, h]

/-! ## C1: the output path resolver -/

/-- **C1.**  For every step and recipe, `get_output_path` returns the
composed root (report root, then `recipe.output`, then `step.output`)
extended according to the `src`/`dst` case analysis: a `dst` ending in a
path separator appends `dst` and then the source relocated under
`srcRoot` (when given) or its filename component; a `dst` without a
trailing separator is appended as the literal destination; an absent
`dst` with a given `src` appends the filename component only; with both
absent the composed root is returned.  The three concrete examples of the
specification are included.  (The relativity side conditions say that the
appended strings are relative paths, which is what "append" asserts.) -/
theorem claim_C1_output_path_resolver :
    (∀ (step recipe : YVal) (sroot : Option String),
        get_output_path none none step recipe sroot = .ok (composedRoot step recipe)) ∧
    (∀ (step recipe : YVal) (src sroot : Option String) (d : String),
        d ≠ "" → strEndsWith d "/" = false → strStartsWith d "/" = false →
        get_output_path src (some d) step recipe sroot =
          .ok ⟨(composedRoot step recipe).isAbs,
               (composedRoot step recipe).comps ++ (parsePath d).comps⟩) ∧
    (∀ (step recipe : YVal) (d s : String),
        d ≠ "" → strEndsWith d "/" = true → strStartsWith d "/" = false → s ≠ "" →
        parsePath (pathName (parsePath s)) = PathM.mk false [pathName (parsePath s)] →
        get_output_path (some s) (some d) step recipe none =
          .ok ⟨(composedRoot step recipe).isAbs,
               (composedRoot step recipe).comps ++ (parsePath d).comps ++
                 [pathName (parsePath s)]⟩) ∧
    (∀ (step recipe : YVal) (d s r : String) (rel : List String),
        d ≠ "" → strEndsWith d "/" = true → strStartsWith d "/" = false → s ≠ "" → r ≠ "" →
        relativeTo (parsePath s) (parsePath r) = some rel →
        get_output_path (some s) (some d) step recipe (some r) =
          .ok ⟨(composedRoot step recipe).isAbs,
               (composedRoot step recipe).comps ++ (parsePath d).comps ++ rel⟩) ∧
    (∀ (step recipe : YVal) (s : String),
        s ≠ "" →
        parsePath (pathName (parsePath s)) = PathM.mk false [pathName (parsePath s)] →
        get_output_path (some s) none step recipe none =
          .ok ⟨(composedRoot step recipe).isAbs,
               (composedRoot step recipe).comps ++ [pathName (parsePath s)]⟩) ∧
    get_output_path (some "/a/b/c.txt") (some "out/") (.ydict []) (.ydict []) none =
      .ok ⟨true, ["tmp", "report", "out", "c.txt"]⟩ ∧
    get_output_path none (some "out.txt") (.ydict []) (.ydict []) none =
      .ok ⟨true, ["tmp", "report", "out.txt"]⟩ ∧
    get_output_path (some "/a/b/c.txt") none (.ydict []) (.ydict []) none =
      .ok ⟨true, ["tmp", "report", "c.txt"]⟩ := by
  refine ⟨?_, ?_, ?_, ?_, ?_, rfl, rfl, rfl⟩
  · intro step recipe sroot
    simp [get_output_path, composedRoot, optTruthy]
  · intro step recipe src sroot d hne hend hstart
    simp only [get_output_path, composedRoot, optTruthy]
    rw [if_neg (by simpa using hne)]
    simp only [hend, Bool.false_eq_true, if_false]
    rw [pathJoinStr_rel _ _ hstart]
  · intro step recipe d s hdne hend hstart hsne hname
    simp only [get_output_path, composedRoot, optTruthy]
    rw [if_neg (by simpa using hdne), if_neg (by simpa using hsne)]
    simp only [hend, if_true]
    rw [pathJoinStr_rel _ _ hstart]
    simp only [pathJoinStr, hname]
    rw [pathJoin_rel _ _ rfl]
  · intro step recipe d s r rel hdne hend hstart hsne hrne hrel
    simp only [get_output_path, composedRoot, optTruthy]
    rw [if_neg (by simpa using hdne), if_neg (by simpa using hsne),
      if_neg (by simpa using hrne)]
    simp only [hend, if_true, hrel]
    rw [pathJoinStr_rel _ _ hstart]
  · intro step recipe s hsne hname
    simp only [get_output_path, composedRoot, optTruthy]
    rw [if_neg (by simpa using hsne)]
    simp only [pathJoinStr, hname]
    rw [pathJoin_rel _ _ rfl]

/-- Witness for C1: the relocation case at a concrete input. -/
theorem claim_C1_output_path_resolver_witness :
    get_output_path (some "/a/b/c.txt") (some "out/") (.ydict []) (.ydict []) (some "/a") =
      .ok ⟨true, ["tmp", "report", "out", "b", "c.txt"]⟩ := by
  have h := claim_C1_output_path_resolver.2.2.2.1 (.ydict []) (.ydict [])
    "out/" "/a/b/c.txt" "/a" ["b", "c.txt"]
    (by decide) (by decide) (by decide) (by decide) (by decide) (by decide)
  simpa using h

/-! ## C9: the mtime reduction -/

/-- Characterization of the scanning fold of `get_latest_modified_file`:
either every element is strictly below the starting best and the
accumulator survives, or the result is the *last* element attaining the
running maximum. -/
theorem latestFold_spec {α : Type} (l : List (α × Int)) (acc : Option α × Int) :
    (l.foldl (fun acc f => if f.2 < acc.2 then acc else (some f.1, f.2)) acc = acc ∧
      ∀ p ∈ l, p.2 < acc.2) ∨
    (∃ f m pre suf, l = pre ++ (f, m) :: suf ∧
      l.foldl (fun acc f => if f.2 < acc.2 then acc else (some f.1, f.2)) acc = (some f, m) ∧
      acc.2 ≤ m ∧ (∀ p ∈ pre, p.2 ≤ m) ∧ (∀ p ∈ suf, p.2 < m)) := by
  induction l using List.reverseRecOn with
  | nil => exact Or.inl ⟨rfl, by simp⟩
  | append_singleton l' x ih =>
    rw [List.foldl_append]
    rcases ih with ⟨heq, hall⟩ | ⟨f, m, pre, suf, hsplit, heq, hacc, hpre, hsuf⟩
    · rw [heq]
      by_cases hx : x.2 < acc.2
      · exact Or.inl ⟨by simp [hx], by
          intro p hp
          rcases List.mem_append.mp hp with h | h
          · exact hall p h
          · simp at h; subst h; exact hx⟩
      · refine Or.inr ⟨x.1, x.2, l', [], by simp, by simp [hx], by omega, ?_, by simp⟩
        intro p hp
        have := hall p hp
        omega
    · rw [heq]
      by_cases hx : x.2 < m
      · refine Or.inr ⟨f, m, pre, suf ++ [x], by simp [hsplit], by simp [hx], hacc, hpre, ?_⟩
        intro p hp
        rcases List.mem_append.mp hp with h | h
        · exact hsuf p h
        · simp at h; subst h; exact hx
      · refine Or.inr ⟨x.1, x.2, l', [], by simp, by simp [hx], by omega, ?_, by simp⟩
        intro p hp
        rw [hsplit] at hp
        rcases List.mem_append.mp hp with h | h
        · have := hpre p h; omega
        · rcases List.mem_cons.mp h with h | h
          · subst h; omega
          · have := hsuf p h; omega

/-- **C9 (counterexample).**  Two candidate files with identical
modification times: the file kept is the *second* encountered, not the
first — `get_latest_modified_file` updates its running best on ties. -/
theorem claim_C9_counterexample :
    get_latest_modified_file [("a", (5 : Int)), ("b", (5 : Int))] = some "b" ∧
    get_latest_modified_file [("a", (5 : Int)), ("b", (5 : Int))] ≠ some "a" := by
  decide

/-- **C9 (amended).**  For every non-empty candidate list with
non-negative modification times, the glob executor reduces the list to a
single file of maximal modification time; when several files share the
maximal time the one kept is the *last* encountered (every candidate not
older than the current best replaces it).  The scan starts from a best of
`0.0`, whence the non-negativity assumption. -/
theorem claim_C9_latest_modified (l : List (String × Int))
    (hne : l ≠ []) (hnn : ∀ p ∈ l, 0 ≤ p.2) :
    ∃ f m pre suf,
      get_latest_modified_file l = some f ∧
      globMtimeReduce true l = some [f] ∧
      l = pre ++ (f, m) :: suf ∧
      (∀ p ∈ l, p.2 ≤ m) ∧
      (∀ p ∈ suf, p.2 < m) := by
  rcases latestFold_spec l ((none : Option String), (0 : Int)) with ⟨_, hall⟩ |
    ⟨f, m, pre, suf, hsplit, heq, _, hpre, hsuf⟩
  · rcases List.exists_mem_of_ne_nil l hne with ⟨p, hp⟩
    have h1 := hall p hp
    have h2 := hnn p hp
    omega
  · have hres : get_latest_modified_file l = some f := by
      simp [get_latest_modified_file, heq]
    refine ⟨f, m, pre, suf, hres, by simp [globMtimeReduce, hres], hsplit, ?_, hsuf⟩
    intro p hp
    rw [hsplit] at hp
    rcases List.mem_append.mp hp with h | h
    · exact hpre p h
    · rcases List.mem_cons.mp h with h | h
      · subst h; omega
      · have := hsuf p h; omega

/-- Witness for C9 (amended): a concrete scan with a tie at the maximum. -/
theorem claim_C9_latest_modified_witness :
    ∃ f m pre suf,
      get_latest_modified_file [("a", (5 : Int)), ("b", (7 : Int)), ("c", (7 : Int)), ("d", (3 : Int))] = some f ∧
      globMtimeReduce true [("a", (5 : Int)), ("b", (7 : Int)), ("c", (7 : Int)), ("d", (3 : Int))] = some [f] ∧
      [("a", (5 : Int)), ("b", (7 : Int)), ("c", (7 : Int)), ("d", (3 : Int))] = pre ++ (f, m) :: suf ∧
      (∀ p ∈ [("a", (5 : Int)), ("b", (7 : Int)), ("c", (7 : Int)), ("d", (3 : Int))], p.2 ≤ m) ∧
      (∀ p ∈ suf, p.2 < m) :=
  claim_C9_latest_modified _ (by decide) (by decide)

/-! ## C8: env capture -/

/-- The selection loop of `cmd_env` is the order-preserving filter by the
union of the two criteria. -/
theorem envScan_eq_filter (env : List (String × String)) (vlist : List String)
    (rmatch : Option (String → Bool)) :
    envScan env vlist rmatch =
      (env.filter (fun e => vlist.contains e.1 || rmatchB rmatch e.1)).map Prod.fst := by
  induction env with
  | nil => rfl
  | cons e rest ih =>
    obtain ⟨var, val⟩ := e
    by_cases hv : var ∈ vlist
    · simp [envScan, hv, List.filter_cons, rmatchB, ih]
    · cases rmatch with
      | none => simp [envScan, hv, List.filter_cons, rmatchB, ih]
      | some f =>
        by_cases hf : f var
        · simp [envScan, hv, hf, List.filter_cons, rmatchB, ih]
        · simp [envScan, hv, hf, List.filter_cons, rmatchB, ih]

/-- First-match lookup returns the stored value when names are unique. -/
theorem lookupEnv_mem_nodup (env : List (String × String)) (k v : String)
    (hmem : (k, v) ∈ env) (hnd : (env.map Prod.fst).Nodup) :
    lookupEnv env k = v := by
  induction env with
  | nil => simp at hmem
  | cons e rest ih =>
    obtain ⟨k', v'⟩ := e
    simp only [List.map_cons, List.nodup_cons] at hnd
    rcases List.mem_cons.mp hmem with h | h
    · obtain ⟨h1, h2⟩ := Prod.mk.injEq .. ▸ h
      injection h with h1 h2
      subst h1; subst h2
      simp [lookupEnv]
    · have hk : k' ≠ k := by
        intro he
        subst he
        exact hnd.1 (List.mem_map.mpr ⟨(k', v), h, rfl⟩)
      simp only [lookupEnv, List.find?]
      rw [show ((k', v').1 == k) = false by simpa using hk]
      exact ih h hnd.2

/-- **C8.**  For every process environment and env command, the captured
variables are exactly those whose name is listed in `vars` or matched by
the (start-anchored) regex — the union of both criteria, in environment
order, each variable reported at most once — and the output is the
`NAME=VALUE` lines joined by newlines.  The specification's concrete
example is included, with `^BAR_` modelled by its anchored-match
semantics (a prefix test). -/
theorem claim_C8_env_capture :
    (∀ (env : List (String × String)) (vlist : List String) (rmatch : Option (String → Bool)),
        envScan env vlist rmatch =
          (env.filter (fun e => vlist.contains e.1 || rmatchB rmatch e.1)).map Prod.fst) ∧
    (∀ (env : List (String × String)) (vlist : List String) (rmatch : Option (String → Bool))
        (v : String),
        v ∈ envScan env vlist rmatch ↔
          ∃ val, (v, val) ∈ env ∧ (vlist.contains v || rmatchB rmatch v) = true) ∧
    (∀ (env : List (String × String)) (vlist : List String) (rmatch : Option (String → Bool)),
        (env.map Prod.fst).Nodup → (envScan env vlist rmatch).Nodup) ∧
    (∀ (env : List (String × String)) (vlist : List String) (rmatch : Option (String → Bool)),
        (env.map Prod.fst).Nodup →
        cmd_env_out env vlist rmatch =
          String.intercalate "\n"
            ((env.filter (fun e => vlist.contains e.1 || rmatchB rmatch e.1)).map
              (fun e => e.1 ++ "=" ++ e.2))) ∧
    envScan [("FOO", "1"), ("BAR_X", "2"), ("BAZ", "3")] ["FOO"]
        (some (fun v => strStartsWith v "BAR_")) = ["FOO", "BAR_X"] ∧
    cmd_env_out [("FOO", "1"), ("BAR_X", "2"), ("BAZ", "3")] ["FOO"]
        (some (fun v => strStartsWith v "BAR_")) = "FOO=1\nBAR_X=2" := by
  have hmem : ∀ (env : List (String × String)) (vlist : List String)
      (rmatch : Option (String → Bool)) (v : String),
      v ∈ envScan env vlist rmatch ↔
        ∃ val, (v, val) ∈ env ∧ (vlist.contains v || rmatchB rmatch v) = true := by
    intro env vlist rmatch v
    rw [envScan_eq_filter]
    constructor
    · intro h
      rcases List.mem_map.mp h with ⟨e, he, hfst⟩
      rcases List.mem_filter.mp he with ⟨hin, hcond⟩
      subst hfst
      exact ⟨e.2, by simpa using hin, hcond⟩
    · rintro ⟨val, hin, hcond⟩
      exact List.mem_map.mpr ⟨(v, val), List.mem_filter.mpr ⟨hin, hcond⟩, rfl⟩
  refine ⟨envScan_eq_filter, hmem, ?_, ?_, rfl, rfl⟩
  · intro env vlist rmatch hnd
    rw [envScan_eq_filter]
    exact hnd.sublist (List.Sublist.map Prod.fst (List.filter_sublist env))
  · intro env vlist rmatch hnd
    unfold cmd_env_out
    rw [envScan_eq_filter, List.map_map]
    congr 1
    refine List.map_congr_left ?_
    intro e he
    have hin : e ∈ env := List.mem_of_mem_filter he
    have : lookupEnv env e.1 = e.2 :=
      lookupEnv_mem_nodup env e.1 e.2 (by rwa [Prod.mk.eta]) hnd
    simp [Function.comp, this]

/-- Witness for C8: the claims with hypotheses at the concrete example
environment. -/
theorem claim_C8_env_capture_witness :
    ((envScan [("FOO", "1"), ("BAR_X", "2"), ("BAZ", "3")] ["FOO"]
        (some (fun v => strStartsWith v "BAR_"))).Nodup) ∧
    ("BAR_X" ∈ envScan [("FOO", "1"), ("BAR_X", "2"), ("BAZ", "3")] ["FOO"]
        (some (fun v => strStartsWith v "BAR_")) ↔
      ∃ val, ("BAR_X", val) ∈ [("FOO", "1"), ("BAR_X", "2"), ("BAZ", "3")] ∧
        ((["FOO"].contains "BAR_X" ||
          rmatchB (some (fun v => strStartsWith v "BAR_")) "BAR_X") = true)) :=
  ⟨claim_C8_env_capture.2.2.1 _ _ _ (by decide),
   claim_C8_env_capture.2.1 _ _ _ _⟩

/-! ## File-system lemmas -/

theorem lookupFile_setFile_self (fs : FS) (p : PathM) (c : String) :
    lookupFile (setFile fs p c) p = some c := by
  induction fs with
  | nil => simp [setFile, lookupFile]
  | cons e rest ih =>
    by_cases he : e.1 = p
    · simp [setFile, lookupFile, he]
    · simp only [setFile, show (e.1 == p) = false by simpa using he, if_false]
      simpa [lookupFile, List.find?, show (e.1 == p) = false by simpa using he] using ih

theorem lookupFile_setFile_ne (fs : FS) (p : PathM) (c : String) (q : PathM) (h : q ≠ p) :
    lookupFile (setFile fs p c) q = lookupFile fs q := by
  induction fs with
  | nil => simp [setFile, lookupFile, List.find?, show (p == q) = false by simpa using (Ne.symm h)]
  | cons e rest ih =>
    by_cases he : e.1 = p
    · subst he
      simp only [setFile, beq_self_eq_true, if_true]
      simp [lookupFile, List.find?, show (e.1 == q) = false by simpa using (Ne.symm h)]
    · simp only [setFile, show (e.1 == p) = false by simpa using he, if_false]
      by_cases heq : e.1 = q
      · simp [lookupFile, List.find?, heq]
      · simpa [lookupFile, List.find?, show (e.1 == q) = false by simpa using heq] using ih

theorem existsFile_setFile_self (fs : FS) (p : PathM) (c : String) :
    existsFile (setFile fs p c) p = true := by
  induction fs with
  | nil => simp [setFile, existsFile]
  | cons e rest ih =>
    by_cases he : e.1 = p
    · simp [setFile, existsFile, he]
    · simp only [setFile, show (e.1 == p) = false by simpa using he, if_false]
      simpa [existsFile, show (e.1 == p) = false by simpa using he] using ih

theorem existsFile_setFile_ne (fs : FS) (p : PathM) (c : String) (q : PathM) (h : q ≠ p) :
    existsFile (setFile fs p c) q = existsFile fs q := by
  induction fs with
  | nil => simp [setFile, existsFile, show (p == q) = false by simpa using (Ne.symm h)]
  | cons e rest ih =>
    by_cases he : e.1 = p
    · subst he
      simp [setFile, existsFile, show (e.1 == q) = false by simpa using (Ne.symm h)]
    · simp only [setFile, show (e.1 == p) = false by simpa using he, if_false]
      by_cases heq : e.1 = q
      · simp [existsFile, heq]
      · simpa [existsFile, show (e.1 == q) = false by simpa using heq] using ih

theorem existsFile_of_lookupFile (fs : FS) (p : PathM) (c : String)
    (h : lookupFile fs p = some c) : existsFile fs p = true := by
  induction fs with
  | nil => simp [lookupFile] at h
  | cons e rest ih =>
    by_cases he : e.1 = p
    · simp [existsFile, he]
    · simp only [lookupFile, List.find?, show (e.1 == p) = false by simpa using he] at h
      simpa [existsFile, show (e.1 == p) = false by simpa using he] using ih h

/-- With `src = None` and no `src_root`, `get_output_path` never raises. -/
theorem get_output_path_src_none_ok (dst : Option String) (step recipe : YVal) :
    ∃ p, get_output_path none dst step recipe none = .ok p := by
  simp only [get_output_path]
  cases optTruthy dst with
  | none => exact ⟨_, rfl⟩
  | some d =>
    by_cases he : strEndsWith d "/"
    · simp only [he, if_true]
      exact ⟨_, rfl⟩
    · simp only [he, Bool.false_eq_true, if_false]
      exact ⟨_, rfl⟩

/-! ## C10: env writes even an empty capture; exec does not -/

/-- **C10.**  With `output` set, `cmd_env` always creates or rewrites the
resolved output file, even when no environment variable matched: it
writes the empty string, which (without `append`) truncates any existing
file at that path — whereas `cmd_exec` writes nothing at all when the
captured text is empty. -/
theorem claim_C10_env_empty_write :
    (∀ (fs : FS) (env : List (String × String)) (vlist : List String)
        (rmatch : Option (String → Bool)) (o : String) (step recipe : YVal),
        o ≠ "" → envScan env vlist rmatch = [] →
        ∃ p, get_output_path none (some o) step recipe none = .ok p ∧
          lookupFile (cmd_env_run fs env vlist rmatch (some o) false step recipe) p =
            some "") ∧
    (∀ (fs : FS) (outArg errArg : Option String) (app : Bool) (step recipe : YVal),
        cmd_exec_write fs "" "" outArg errArg app step recipe = fs) := by
  constructor
  · intro fs env vlist rmatch o step recipe ho hscan
    obtain ⟨p, hp⟩ := get_output_path_src_none_ok (some o) step recipe
    refine ⟨p, hp, ?_⟩
    have hout : cmd_env_out env vlist rmatch = "" := by
      simp [cmd_env_out, hscan, String.intercalate]
    simp only [cmd_env_run, optTruthy, show (o == "") = false by simpa using ho, if_false,
      hp, writeMode, Bool.false_eq_true, if_false, hout]
    exact lookupFile_setFile_self fs p ""
  · intro fs outArg errArg app step recipe
    simp [cmd_exec_write]

/-- Witness for C10: a concrete env command with zero matches truncating
an existing file. -/
theorem claim_C10_env_empty_write_witness :
    ∃ p, get_output_path none (some "env.txt") (.ydict []) (.ydict []) none = .ok p ∧
      lookupFile
        (cmd_env_run [(⟨true, ["tmp", "report", "env.txt"]⟩, "OLD")]
          [("A", "1")] ["B"] none (some "env.txt") false (.ydict []) (.ydict [])) p =
        some "" :=
  claim_C10_env_empty_write.1 _ [("A", "1")] ["B"] none "env.txt" (.ydict []) (.ydict [])
    (by decide) (by decide)

/-! ## C2: glob collision handling -/

theorem strAppend_cancel_left (a b c : String) (h : a ++ b = a ++ c) : b = c := by
  have hd : a.data ++ b.data = a.data ++ c.data := congrArg String.data h
  have hbc : b.data = c.data := List.append_cancel_left hd
  cases b
  cases c
  exact congrArg String.mk hbc

theorem pathName_eq_getLast (p : PathM) (h : p.comps ≠ []) :
    pathName p = p.comps.getLast h := by
  simp [pathName, List.getLast?_eq_getLast p.comps h]

/-- A suffixed destination never equals the base destination. -/
theorem suffixPath_ne_base (d : PathM) (hc : d.comps ≠ []) (k : Nat) :
    suffixPath d k ≠ d := by
  intro h
  have hcomps : d.comps.dropLast ++ [pathName d ++ "." ++ toString k] = d.comps :=
    congrArg PathM.comps h
  have h2 : d.comps.dropLast ++ [pathName d ++ "." ++ toString k] =
      d.comps.dropLast ++ [d.comps.getLast hc] := by
    rw [hcomps]
    exact (List.dropLast_append_getLast hc).symm
  have hlast : pathName d ++ "." ++ toString k = d.comps.getLast hc := by
    have := List.append_cancel_left h2
    simpa using this
  rw [pathName_eq_getLast d hc] at hlast
  have := congrArg (fun s => s.data.length) hlast
  simp [List.length_append] at this

/-- Distinct counters give distinct suffixed destinations. -/
theorem suffixPath_ne_of_ne (d : PathM) (j k : Nat) (h : toString j ≠ toString k) :
    suffixPath d j ≠ suffixPath d k := by
  intro he
  have hcomps : d.comps.dropLast ++ [pathName d ++ "." ++ toString j] =
      d.comps.dropLast ++ [pathName d ++ "." ++ toString k] :=
    congrArg PathM.comps he
  have h1 := List.append_cancel_left hcomps
  have h2 : pathName d ++ "." ++ toString j = pathName d ++ "." ++ toString k := by
    simpa using h1
  exact h (strAppend_cancel_left _ _ _ (by
    have := strAppend_cancel_left (pathName d) ("." ++ toString j) ("." ++ toString k)
      (by simpa [String.append_assoc] using h2)
    simpa using this))

/-- The suffix search returns the smallest free counter at or above its
starting counter, and the returned path is free. -/
theorem findFreeSuffix_spec (fs : FS) (dst : PathM) :
    ∀ (fuel cnt : Nat) (q : PathM), findFreeSuffix fs dst fuel cnt = some q →
      existsFile fs q = false ∧
      ∃ k, cnt ≤ k ∧ q = suffixPath dst k ∧
        ∀ j, cnt ≤ j → j < k → existsFile fs (suffixPath dst j) = true := by
  intro fuel
  induction fuel with
  | zero => intro cnt q h; simp [findFreeSuffix] at h
  | succ n ih =>
    intro cnt q h
    simp only [findFreeSuffix] at h
    by_cases he : existsFile fs (suffixPath dst cnt)
    · rw [if_pos he] at h
      obtain ⟨hfree, k, hk, hq, hall⟩ := ih (cnt + 1) q h
      refine ⟨hfree, k, by omega, hq, ?_⟩
      intro j hj1 hj2
      rcases Nat.eq_or_lt_of_le hj1 with h | h
      · subst h; exact he
      · exact hall j h hj2
    · rw [if_neg he] at h
      injection h with h
      subst h
      exact ⟨by simpa using he, cnt, le_refl _, rfl, fun j hj1 hj2 => absurd hj2 (by omega)⟩

/-- The destination chosen for a glob copy never points at an existing
file. -/
theorem globChooseDst_fresh (fs : FS) (dst q : PathM) (h : globChooseDst fs dst = some q) :
    existsFile fs q = false := by
  unfold globChooseDst at h
  by_cases he : existsFile fs dst
  · rw [if_pos he] at h
    exact (findFreeSuffix_spec fs dst _ _ _ h).1
  · rw [if_neg he] at h
    injection h with h
    subst h
    simpa using he

/-- Choice specification: the resolved name when free, otherwise the
smallest free suffixed name. -/
theorem globChooseDst_spec (fs : FS) (dst q : PathM) (h : globChooseDst fs dst = some q) :
    (existsFile fs dst = false ∧ q = dst) ∨
    (existsFile fs dst = true ∧ ∃ k, 1 ≤ k ∧ q = suffixPath dst k ∧
      existsFile fs q = false ∧
      ∀ j, 1 ≤ j → j < k → existsFile fs (suffixPath dst j) = true) := by
  unfold globChooseDst at h
  by_cases he : existsFile fs dst
  · rw [if_pos he] at h
    obtain ⟨hfree, k, hk, hq, hall⟩ := findFreeSuffix_spec fs dst _ _ _ h
    exact Or.inr ⟨he, k, hk, hq, hq ▸ hfree, hall⟩
  · rw [if_neg he] at h
    injection h with h
    exact Or.inl ⟨by simpa using he, h.symm⟩

/-- The glob copy loop never touches an existing file: every copy goes to
a fresh destination. -/
theorem cmd_glob_copy_preserves (files : List (String × String)) (output : Option String)
    (step recipe : YVal) (sroot : Option String) :
    ∀ (fs : FS) (p : PathM), existsFile fs p = true →
      lookupFile (cmd_glob_copy files output step recipe sroot fs) p = lookupFile fs p := by
  induction files with
  | nil => intro fs p _; rfl
  | cons f rest ih =>
    intro fs p hp
    obtain ⟨s, content⟩ := f
    cases hres : get_output_path (some s) output step recipe sroot with
    | error e => simp only [cmd_glob_copy, hres]
    | ok dst =>
      cases hch : globChooseDst fs dst with
      | none =>
        simp only [cmd_glob_copy, hres, hch]
        exact ih fs p hp
      | some d =>
        have hfresh := globChooseDst_fresh fs dst d hch
        have hne : p ≠ d := by
          intro he
          subst he
          rw [hp] at hfresh
          exact Bool.true_eq_false.mp hfresh
        simp only [cmd_glob_copy, hres, hch]
        rw [ih (setFile fs d content) p
          (by rw [existsFile_setFile_ne fs d content p hne]; exact hp)]
        exact lookupFile_setFile_ne fs d content p hne

theorem setFile_ne_nil (fs : FS) (p : PathM) (c : String) : setFile fs p c ≠ [] := by
  cases fs with
  | nil => simp [setFile]
  | cons e rest =>
    simp only [setFile]
    by_cases he : e.1 == p
    · simp [he]
    · simp [he]

/-- One glob copy step with successful resolution and destination choice. -/
theorem cmd_glob_copy_cons_ok (s content : String) (rest : List (String × String))
    (output : Option String) (step recipe : YVal) (sroot : Option String)
    (fs : FS) (dst d : PathM)
    (hres : get_output_path (some s) output step recipe sroot = .ok dst)
    (hch : globChooseDst fs dst = some d) :
    cmd_glob_copy ((s, content) :: rest) output step recipe sroot fs =
      cmd_glob_copy rest output step recipe sroot (setFile fs d content) := by
  simp only [cmd_glob_copy, hres, hch]

/-- **C2.**  Within one run, a glob command copying files whose
destinations resolve to the same name never overwrites an existing file:
the chosen destination is the resolved name when free and otherwise the
smallest free suffixed name `<name>.k` (k ≥ 1), every existing file's
content is preserved across the whole copy loop, and for three files
colliding on a fresh destination the copies land at `<name>`, `<name>.1`,
`<name>.2` in discovery order (so the second writer gets the first
suffix, whichever file is discovered second). -/
theorem claim_C2_glob_collisions :
    (∀ (files : List (String × String)) (output : Option String) (step recipe : YVal)
        (sroot : Option String) (fs : FS) (p : PathM),
        existsFile fs p = true →
        lookupFile (cmd_glob_copy files output step recipe sroot fs) p = lookupFile fs p) ∧
    (∀ (fs : FS) (dst q : PathM), globChooseDst fs dst = some q →
        (existsFile fs dst = false ∧ q = dst) ∨
        (existsFile fs dst = true ∧ ∃ k, 1 ≤ k ∧ q = suffixPath dst k ∧
          existsFile fs q = false ∧
          ∀ j, 1 ≤ j → j < k → existsFile fs (suffixPath dst j) = true)) ∧
    (∀ (output : Option String) (step recipe : YVal) (sroot : Option String)
        (fs₀ : FS) (s1 s2 s3 c1 c2 c3 : String) (d : PathM),
        get_output_path (some s1) output step recipe sroot = .ok d →
        get_output_path (some s2) output step recipe sroot = .ok d →
        get_output_path (some s3) output step recipe sroot = .ok d →
        existsFile fs₀ d = false →
        existsFile fs₀ (suffixPath d 1) = false →
        existsFile fs₀ (suffixPath d 2) = false →
        d.comps ≠ [] →
        lookupFile (cmd_glob_copy [(s1, c1), (s2, c2), (s3, c3)] output step recipe sroot fs₀)
            d = some c1 ∧
        lookupFile (cmd_glob_copy [(s1, c1), (s2, c2), (s3, c3)] output step recipe sroot fs₀)
            (suffixPath d 1) = some c2 ∧
        lookupFile (cmd_glob_copy [(s1, c1), (s2, c2), (s3, c3)] output step recipe sroot fs₀)
            (suffixPath d 2) = some c3) := by
  refine ⟨cmd_glob_copy_preserves, globChooseDst_spec, ?_⟩
  intro output step recipe sroot fs₀ s1 s2 s3 c1 c2 c3 d hres1 hres2 hres3 hd h1 h2 hcomps
  have hd1 : suffixPath d 1 ≠ d := suffixPath_ne_base d hcomps 1
  have hd2 : suffixPath d 2 ≠ d := suffixPath_ne_base d hcomps 2
  have h21 : suffixPath d 2 ≠ suffixPath d 1 := suffixPath_ne_of_ne d 2 1 (by decide)
  have h12 : suffixPath d 1 ≠ suffixPath d 2 := suffixPath_ne_of_ne d 1 2 (by decide)
  have hch1 : globChooseDst fs₀ d = some d := by
    simp [globChooseDst, hd]
  have hch2 : globChooseDst (setFile fs₀ d c1) d = some (suffixPath d 1) := by
    have he1 : existsFile (setFile fs₀ d c1) d = true := existsFile_setFile_self fs₀ d c1
    simp only [globChooseDst, he1, if_true, findFreeSuffix]
    have hfree : existsFile (setFile fs₀ d c1) (suffixPath d 1) = false := by
      rw [existsFile_setFile_ne fs₀ d c1 _ hd1]
      exact h1
    simp [hfree]
  have hch3 : globChooseDst (setFile (setFile fs₀ d c1) (suffixPath d 1) c2) d =
      some (suffixPath d 2) := by
    have he2 : existsFile (setFile (setFile fs₀ d c1) (suffixPath d 1) c2) d = true := by
      rw [existsFile_setFile_ne _ (suffixPath d 1) c2 d (Ne.symm hd1)]
      exact existsFile_setFile_self fs₀ d c1
    have hs1 : existsFile (setFile (setFile fs₀ d c1) (suffixPath d 1) c2)
        (suffixPath d 1) = true := existsFile_setFile_self _ _ _
    have hs2 : existsFile (setFile (setFile fs₀ d c1) (suffixPath d 1) c2)
        (suffixPath d 2) = false := by
      rw [existsFile_setFile_ne _ _ _ _ h21, existsFile_setFile_ne fs₀ d c1 _ hd2]
      exact h2
    obtain ⟨m, hm⟩ : ∃ m,
        (setFile (setFile fs₀ d c1) (suffixPath d 1) c2).length = m + 1 := by
      have hpos : 0 < (setFile (setFile fs₀ d c1) (suffixPath d 1) c2).length :=
        List.length_pos.mpr (setFile_ne_nil _ _ _)
      exact ⟨(setFile (setFile fs₀ d c1) (suffixPath d 1) c2).length - 1, by omega⟩
    simp only [globChooseDst, he2, if_true, hm, findFreeSuffix, hs1, if_true]
    simp [hs2]
  rw [cmd_glob_copy_cons_ok _ _ _ _ _ _ _ _ _ _ hres1 hch1,
    cmd_glob_copy_cons_ok _ _ _ _ _ _ _ _ _ _ hres2 hch2,
    cmd_glob_copy_cons_ok _ _ _ _ _ _ _ _ _ _ hres3 hch3]
  have hfinal : cmd_glob_copy [] output step recipe sroot
      (setFile (setFile (setFile fs₀ d c1) (suffixPath d 1) c2) (suffixPath d 2) c3) =
      setFile (setFile (setFile fs₀ d c1) (suffixPath d 1) c2) (suffixPath d 2) c3 := rfl
  rw [hfinal]
  refine ⟨?_, ?_, ?_⟩
  · rw [lookupFile_setFile_ne _ (suffixPath d 2) c3 d (Ne.symm hd2),
      lookupFile_setFile_ne _ (suffixPath d 1) c2 d (Ne.symm hd1)]
    exact lookupFile_setFile_self fs₀ d c1
  · rw [lookupFile_setFile_ne _ (suffixPath d 2) c3 (suffixPath d 1) h12]
    exact lookupFile_setFile_self _ _ _
  · exact lookupFile_setFile_self _ _ _

/-- Witness for C2: three concrete files with the same filename copied
into an empty staging tree. -/
theorem claim_C2_glob_collisions_witness :
    lookupFile
        (cmd_glob_copy [("/a/x.txt", "1"), ("/b/x.txt", "2"), ("/c/x.txt", "3")]
          none (.ydict []) (.ydict []) none [])
        ⟨true, ["tmp", "report", "x.txt"]⟩ = some "1" ∧
    lookupFile
        (cmd_glob_copy [("/a/x.txt", "1"), ("/b/x.txt", "2"), ("/c/x.txt", "3")]
          none (.ydict []) (.ydict []) none [])
        (suffixPath ⟨true, ["tmp", "report", "x.txt"]⟩ 1) = some "2" ∧
    lookupFile
        (cmd_glob_copy [("/a/x.txt", "1"), ("/b/x.txt", "2"), ("/c/x.txt", "3")]
          none (.ydict []) (.ydict []) none [])
        (suffixPath ⟨true, ["tmp", "report", "x.txt"]⟩ 2) = some "3" :=
  claim_C2_glob_collisions.2.2 none (.ydict []) (.ydict []) none []
    "/a/x.txt" "/b/x.txt" "/c/x.txt" "1" "2" "3" ⟨true, ["tmp", "report", "x.txt"]⟩
    rfl rfl rfl rfl rfl rfl (by decide)

/-! ## C3/C4/C5: redaction lemmas -/

theorem lookupR_setFileR_self (fs : RFS) (p : RPath) (c : Option String) :
    lookupR (setFileR fs p c) p = some c := by
  induction fs with
  | nil => simp [setFileR, lookupR]
  | cons e rest ih =>
    by_cases he : e.1 = p
    · simp [setFileR, lookupR, he]
    · simp only [setFileR, show (e.1 == p) = false by simpa using he, if_false]
      simpa [lookupR, List.find?, show (e.1 == p) = false by simpa using he] using ih

theorem lookupR_setFileR_ne (fs : RFS) (p : RPath) (c : Option String) (q : RPath)
    (h : q ≠ p) : lookupR (setFileR fs p c) q = lookupR fs q := by
  induction fs with
  | nil => simp [setFileR, lookupR, List.find?, show (p == q) = false by simpa using (Ne.symm h)]
  | cons e rest ih =>
    by_cases he : e.1 = p
    · subst he
      simp only [setFileR, beq_self_eq_true, if_true]
      simp [lookupR, List.find?, show (e.1 == q) = false by simpa using (Ne.symm h)]
    · simp only [setFileR, show (e.1 == p) = false by simpa using he, if_false]
      by_cases heq : e.1 = q
      · simp [lookupR, List.find?, heq]
      · simpa [lookupR, List.find?, show (e.1 == q) = false by simpa using heq] using ih

/-- A path under the source root decomposes as root plus its relative
part. -/
theorem append_relUnder (d1 p : RPath) (h : isStrictUnder d1 p = true) :
    d1 ++ relUnder d1 p = p := by
  simp only [isStrictUnder, Bool.and_eq_true, decide_eq_true_eq] at h
  obtain ⟨hpre, _⟩ := h
  obtain ⟨t, ht⟩ := List.isPrefixOf_iff_prefix.mp hpre
  subst ht
  simp [relUnder, List.drop_left]

theorem isStrictUnder_append (d1 rel : RPath) (h : rel ≠ []) :
    isStrictUnder d1 (d1 ++ rel) = true := by
  simp only [isStrictUnder, Bool.and_eq_true, decide_eq_true_eq]
  constructor
  · exact List.isPrefixOf_iff_prefix.mpr (List.prefix_append d1 rel)
  · have : 0 < rel.length := List.length_pos.mpr h
    simp [List.length_append]
    omega

/-- The walk only writes mirrored paths: any path that is not the mirror
of a walked file is untouched. -/
theorem redactWalk_preserves (walk : List (RPath × Option String)) (d1 d2 : RPath)
    (purge : List (String × String)) :
    ∀ (fs : RFS) (p : RPath), (∀ q ∈ walk, d2 ++ relUnder d1 q.1 ≠ p) →
      lookupR (redactWalk walk d1 d2 purge fs).1 p = lookupR fs p := by
  induction walk with
  | nil => intro fs p _; rfl
  | cons q rest ih =>
    intro fs p hne
    obtain ⟨qp, oc⟩ := q
    have hq : d2 ++ relUnder d1 qp ≠ p := hne (qp, oc) (List.mem_cons_self _ _)
    cases oc with
    | none =>
      simp only [redactWalk]
      exact lookupR_setFileR_ne fs _ _ p (Ne.symm hq) |>.trans rfl |>.symm ▸
        lookupR_setFileR_ne fs _ _ p (Ne.symm hq)
    | some data =>
      simp only [redactWalk]
      rw [ih _ p (fun r hr => hne r (List.mem_cons_of_mem _ hr))]
      exact lookupR_setFileR_ne fs _ _ p (Ne.symm hq)

/-- A readable walked file's mirror holds exactly the substituted text. -/
theorem redactWalk_mirror (walk : List (RPath × Option String)) (d1 d2 : RPath)
    (purge : List (String × String)) :
    ∀ (fs : RFS) (p : RPath) (c : String),
      (p, some c) ∈ walk →
      (∀ q ∈ walk, q.2.isSome) →
      (walk.map Prod.fst).Nodup →
      (∀ q ∈ walk, isStrictUnder d1 q.1 = true) →
      lookupR (redactWalk walk d1 d2 purge fs).1 (d2 ++ relUnder d1 p) =
        some (some (applyPurge purge c)) := by
  induction walk with
  | nil => intro fs p c hmem _ _ _; simp at hmem
  | cons q rest ih =>
    intro fs p c hmem hread hnd hunder
    obtain ⟨qp, oc⟩ := q
    cases oc with
    | none =>
      have := hread (qp, none) (List.mem_cons_self _ _)
      simp at this
    | some data =>
      simp only [List.map_cons, List.nodup_cons] at hnd
      rcases List.mem_cons.mp hmem with h | h
      · have hp : p = qp := congrArg Prod.fst h
        have hdc : c = data := Option.some.inj (congrArg Prod.snd h)
        subst hp
        subst hdc
        simp only [redactWalk]
        rw [redactWalk_preserves rest d1 d2 purge _ _ ?_]
        · exact lookupR_setFileR_self fs _ _
        · intro r hr he
          have hrp : r.1 ≠ p := by
            intro hrr
            exact hnd.1 (List.mem_map.mpr ⟨r, hr, hrr⟩)
          have hrel := List.append_cancel_left he
          have hu1 := hunder r (List.mem_cons_of_mem _ hr)
          have hu2 : isStrictUnder d1 p = true :=
            hunder (p, some c) (List.mem_cons_self _ _)
          have : r.1 = p := by
            rw [← append_relUnder d1 r.1 hu1, ← append_relUnder d1 p hu2, hrel]
          exact hrp this
      · have hqp : qp ≠ p := by
          intro he
          subst he
          exact hnd.1 (List.mem_map.mpr ⟨(qp, some c), h, rfl⟩)
        simp only [redactWalk]
        exact ih _ p c h (fun r hr => hread r (List.mem_cons_of_mem _ hr)) hnd.2
          (fun r hr => hunder r (List.mem_cons_of_mem _ hr))

/-- **C3.**  For every readable regular file under the source tree, the
redaction engine writes to the mirrored relative path under the
destination tree exactly the result of applying each purge entry's
substitution globally, in list order, to the accumulated result of the
previous entries.  The specification's concrete example is included.
(Regex substitution is modelled for literal patterns; the root
incomparability assumption reflects the two disjoint temporary trees.) -/
theorem claim_C3_redaction_content :
    (∀ (fs : RFS) (d1 d2 : RPath) (purge : List (String × String)) (rel : RPath) (c : String),
        ¬(d1 <+: d2) → ¬(d2 <+: d1) →
        (fs.map Prod.fst).Nodup →
        (∀ q ∈ fs, isStrictUnder d1 q.1 = true → q.2.isSome) →
        (d1 ++ rel, some c) ∈ fs →
        rel ≠ [] →
        lookupR (redact_files fs d1 d2 purge).1 (d2 ++ rel) =
          some (some (applyPurge purge c))) ∧
    applyPurge [("user1", "<redacted>")] "hello user1 user1" =
      "hello <redacted> <redacted>" ∧
    lookupR
        (redact_files [(["t", "report", "f.txt"], some "hello user1 user1")]
          ["t", "report"] ["t", "redacted"] [("user1", "<redacted>")]).1
        ["t", "redacted", "f.txt"] = some (some "hello <redacted> <redacted>") := by
  refine ⟨?_, rfl, rfl⟩
  intro fs d1 d2 purge rel c h12 h21 hnd hread hmem hrel
  have hunder : isStrictUnder d1 (d1 ++ rel) = true := isStrictUnder_append d1 rel hrel
  have hwalkmem : (d1 ++ rel, some c) ∈ fs.filter (fun e => isStrictUnder d1 e.1) :=
    List.mem_filter.mpr ⟨hmem, hunder⟩
  have hwalknd : ((fs.filter (fun e => isStrictUnder d1 e.1)).map Prod.fst).Nodup :=
    hnd.sublist (List.Sublist.map Prod.fst (List.filter_sublist fs))
  have hrelu : relUnder d1 (d1 ++ rel) = rel := by
    simp [relUnder, List.drop_left]
  have := redactWalk_mirror (fs.filter (fun e => isStrictUnder d1 e.1)) d1 d2 purge fs
    (d1 ++ rel) c hwalkmem
    (fun q hq => hread q (List.mem_filter.mp hq).1 (by simpa using (List.mem_filter.mp hq).2))
    hwalknd
    (fun q hq => by simpa using (List.mem_filter.mp hq).2)
  rw [hrelu] at this
  simpa [redact_files] using this

/-- Witness for C3: the general statement at the example tree. -/
theorem claim_C3_redaction_content_witness :
    lookupR
        (redact_files [(["t", "report", "f.txt"], some "hello user1 user1")]
          ["t", "report"] ["t", "redacted"] [("user1", "<redacted>")]).1
        (["t", "redacted"] ++ ["f.txt"]) =
      some (some (applyPurge [("user1", "<redacted>")] "hello user1 user1")) :=
  claim_C3_redaction_content.1 [(["t", "report", "f.txt"], some "hello user1 user1")]
    ["t", "report"] ["t", "redacted"] [("user1", "<redacted>")] ["f.txt"]
    "hello user1 user1"
    (by decide) (by decide) (by decide)
    (by intro q hq _; simp at hq; simp [hq])
    (by simp) (by decide)

/-- **C4.**  Redaction never mutates the staging tree: every write of
`redact_files` targets a path under the destination root, so any path
not under the destination root — in particular every file of the source
tree, the two roots being distinct siblings — has the same content before
and after the pass. -/
theorem claim_C4_redaction_frame :
    (∀ (fs : RFS) (d1 d2 : RPath) (purge : List (String × String)) (p : RPath),
        ¬(d2 <+: p) →
        lookupR (redact_files fs d1 d2 purge).1 p = lookupR fs p) ∧
    (∀ (fs : RFS) (d1 d2 : RPath) (purge : List (String × String)) (p : RPath),
        ¬(d1 <+: d2) → ¬(d2 <+: d1) →
        isStrictUnder d1 p = true →
        lookupR (redact_files fs d1 d2 purge).1 p = lookupR fs p) := by
  have hout : ∀ (fs : RFS) (d1 d2 : RPath) (purge : List (String × String)) (p : RPath),
      ¬(d2 <+: p) →
      lookupR (redact_files fs d1 d2 purge).1 p = lookupR fs p := by
    intro fs d1 d2 purge p hp
    refine redactWalk_preserves _ d1 d2 purge fs p ?_
    intro q _ he
    exact hp (he ▸ List.prefix_append d2 (relUnder d1 q.1))
  refine ⟨hout, ?_⟩
  intro fs d1 d2 purge p h12 h21 hp
  refine hout fs d1 d2 purge p ?_
  intro hpre
  have hd1p : d1 <+: p := by
    simp only [isStrictUnder, Bool.and_eq_true] at hp
    exact List.isPrefixOf_iff_prefix.mp hp.1
  rcases List.prefix_or_prefix_of_prefix hd1p hpre with h | h
  · exact h12 h
  · exact h21 h

/-- Witness for C4: the frame property at a concrete tree. -/
theorem claim_C4_redaction_frame_witness :
    lookupR
        (redact_files [(["t", "report", "f.txt"], some "secret")]
          ["t", "report"] ["t", "redacted"] [("secret", "x")]).1
        ["t", "report", "f.txt"] =
      lookupR [(["t", "report", "f.txt"], some "secret")] ["t", "report", "f.txt"] :=
  claim_C4_redaction_frame.2 [(["t", "report", "f.txt"], some "secret")]
    ["t", "report"] ["t", "redacted"] [("secret", "x")] ["t", "report", "f.txt"]
    (by decide) (by decide) (by decide)

/-- **C5 (counterexample).**  `redact_files` has no per-file exception
handler: with a readable file, then an unreadable file, then another
readable file in walk order, the pass aborts at the unreadable file —
the later readable file `c.txt` is never mirrored (the claim asserts
every other readable file still is). -/
theorem claim_C5_counterexample :
    (redact_files
        [(["t", "report", "a.txt"], some "A"), (["t", "report", "b.txt"], none),
          (["t", "report", "c.txt"], some "C")]
        ["t", "report"] ["t", "redacted"] []).2 = true ∧
    lookupR
        (redact_files
          [(["t", "report", "a.txt"], some "A"), (["t", "report", "b.txt"], none),
            (["t", "report", "c.txt"], some "C")]
          ["t", "report"] ["t", "redacted"] []).1
        ["t", "redacted", "a.txt"] = some (some "A") ∧
    lookupR
        (redact_files
          [(["t", "report", "a.txt"], some "A"), (["t", "report", "b.txt"], none),
            (["t", "report", "c.txt"], some "C")]
          ["t", "report"] ["t", "redacted"] []).1
        ["t", "redacted", "c.txt"] = none := by
  refine ⟨rfl, rfl, rfl⟩

/-- **C5 (amended).**  An unreadable file aborts the redaction pass
instead of being skipped: the files walked before it are mirrored as
usual, the unreadable file leaves an empty mirror (its destination is
opened for writing before the read), the exception flag is raised — so
the files after it are not processed — and `cmd_create` catches the
escaping exception, logging an error and continuing the run. -/
theorem claim_C5_unreadable_aborts
    (pre : List (RPath × Option String)) (p : RPath) (suf : List (RPath × Option String))
    (d1 d2 : RPath) (purge : List (String × String)) (fs : RFS)
    (hread : ∀ q ∈ pre, q.2.isSome) :
    redactWalk (pre ++ (p, none) :: suf) d1 d2 purge fs =
      (setFileR (redactWalk pre d1 d2 purge fs).1 (d2 ++ relUnder d1 p) (some ""), true) := by
  induction pre generalizing fs with
  | nil => rfl
  | cons q rest ih =>
    obtain ⟨qp, oc⟩ := q
    cases oc with
    | none =>
      have := hread (qp, none) (List.mem_cons_self _ _)
      simp at this
    | some data =>
      simp only [List.cons_append, redactWalk]
      exact ih _ (fun r hr => hread r (List.mem_cons_of_mem _ hr))

/-- Witness for C5 (amended): the three-file tree of the counterexample. -/
theorem claim_C5_unreadable_aborts_witness :
    redactWalk
        [(["t", "report", "a.txt"], some "A"), (["t", "report", "b.txt"], none),
          (["t", "report", "c.txt"], some "C")]
        ["t", "report"] ["t", "redacted"] [] []
      =
      (setFileR
        (redactWalk [(["t", "report", "a.txt"], some "A")]
          ["t", "report"] ["t", "redacted"] [] []).1
        (["t", "redacted"] ++ relUnder ["t", "report"] ["t", "report", "b.txt"])
        (some ""), true) :=
  claim_C5_unreadable_aborts [(["t", "report", "a.txt"], some "A")]
    ["t", "report", "b.txt"] [(["t", "report", "c.txt"], some "C")]
    ["t", "report"] ["t", "redacted"] [] [] (by decide)

/-! ## C6/C7: validator lemmas -/

theorem exbind_ok {α β : Type} (a : Except String α) (f : α → Except String β) (b : β)
    (h : (a >>= f) = .ok b) : ∃ x, a = .ok x ∧ f x = .ok b := by
  cases a with
  | error e => simp [Bind.bind, Except.bind] at h
  | ok x => exact ⟨x, rfl, by simpa [Bind.bind, Except.bind] using h⟩

theorem exSeq_ok (a b : Except String Unit) (ha : a = .ok ()) (hb : b = .ok ()) :
    (a >>= fun _ => b) = .ok () := by
  subst ha
  exact hb

theorem exSeq_err (a : Except String Unit) (f : Unit → Except String Unit) (e : String)
    (h : a = .error e) : (a >>= f) = .error e := by
  subst h
  rfl

theorem chkErr_ok_iff (b : Bool) (msg : String) : chkErr b msg = .ok () ↔ b = false := by
  cases b <;> simp [chkErr]

theorem chkErr_false (msg : String) : chkErr false msg = .ok () := rfl

theorem firstErr_ok_iff {α : Type} (l : List α) (f : α → Except String Unit) :
    firstErr l f = .ok () ↔ ∀ a ∈ l, f a = .ok () := by
  induction l with
  | nil => simp [firstErr]
  | cons a rest ih =>
    cases hf : f a with
    | error e => simp [firstErr, hf]
    | ok x =>
      obtain ⟨⟩ := x
      simp [firstErr, hf, ih]

/-- A key scan stops at the first offending element with its message. -/
theorem firstErr_chk_error {α : Type} (l : List α) (p : α → Bool) (m : α → String) (a : α)
    (h : l.find? (fun x => !p x) = some a) :
    firstErr l (fun x => chkErr (!p x) (m x)) = .error (m a) := by
  induction l with
  | nil => simp [List.find?] at h
  | cons x rest ih =>
    cases hp : p x with
    | true =>
      rw [List.find?_cons] at h
      rw [hp] at h
      simp only [Bool.not_true] at h
      simp only [firstErr, hp, Bool.not_true, chkErr, Bool.false_eq_true, if_false]
      exact ih h
    | false =>
      rw [List.find?_cons] at h
      rw [hp] at h
      simp only [Bool.not_false] at h
      injection h with h
      subst h
      simp [firstErr, hp, chkErr]

theorem contains_true_of_mem {l : List String} {k : String} (h : k ∈ l) :
    l.contains k = true := by
  simpa using h

theorem mem_of_contains_true {l : List String} {k : String} (h : l.contains k = true) :
    k ∈ l := by
  simpa using h

theorem wfOptStr_chk (v : YVal) (h : wfOptStr v = true) : (truthy v && !isStrV v) = false := by
  cases v <;> simp_all [wfOptStr, truthy, isStrV]

theorem wfOptBool_chk (v : YVal) (h : wfOptBool v = true) :
    (truthy v && !isBoolV v) = false := by
  cases v <;> simp_all [wfOptBool, truthy, isBoolV]

/-- A required string field (truthy and of string type). -/
theorem reqStr_facts (v : YVal)
    (h : (match v with | .ystr s => s != "" | _ => false) = true) :
    truthy v = true ∧ isStrV v = true := by
  cases v <;> simp_all [truthy, isStrV]

theorem wfTimeout_chk (t : YVal)
    (h : (match t with | .ynull => true | .yint n => decide (0 < n) | _ => false) = true) :
    (truthy t && !isIntV t) = false := by
  cases t <;> simp_all [truthy, isIntV]

set_option maxHeartbeats 1000000

/-- A well-formed command passes `validate_cmd`. -/
theorem wf_cmd_ok (rc : String → Option String) (sname : String) (cmd : YVal)
    (h : wellFormedCmd (fun s => (rc s).isNone) cmd = true) :
    validate_cmd rc sname cmd = .ok () := by
  cases cmd with
  | ydict kvs =>
    simp only [wellFormedCmd] at h
    by_cases hex : kvs.any (fun kv => kv.1 == "exec")
    · rw [if_pos hex] at h
      simp only [Bool.and_eq_true] at h
      obtain ⟨⟨⟨⟨⟨hkeys, hcmd⟩, hout⟩, herr⟩, htmo⟩, happ⟩ := h
      simp only [validate_cmd, if_pos hex]
      refine exSeq_ok _ _ ?_ (exSeq_ok _ _ ?_ (exSeq_ok _ _ ?_ (exSeq_ok _ _ ?_
        (exSeq_ok _ _ ?_ (exSeq_ok _ _ ?_ ?_)))))
      · refine (firstErr_ok_iff _ _).mpr ?_
        intro kv hkv
        have hm := mem_of_contains_true (List.all_eq_true.mp hkeys kv hkv)
        simp [chkErr, hm]
      · generalize hV : yget (.ydict kvs) "cmd" = V at hcmd ⊢
        cases V <;> simp_all [truthy, chkErr]
      · generalize hV : yget (.ydict kvs) "cmd" = V at hcmd ⊢
        cases V with
        | ystr s => simp [chkErr, isStrV]
        | ylist l =>
          simp only [Bool.and_eq_true] at hcmd
          refine (firstErr_ok_iff _ _).mpr ?_
          intro a ha
          have := List.all_eq_true.mp hcmd.2 a ha
          simp [chkErr, this]
        | ynull => simp at hcmd
        | ybool b => simp at hcmd
        | yint n => simp at hcmd
        | ydict d => simp at hcmd
      · simp [chkErr, wfOptStr_chk _ hout]
      · simp [chkErr, wfOptStr_chk _ herr]
      · simp [chkErr, wfTimeout_chk _ htmo]
      · simp [chkErr, wfOptBool_chk _ happ]
    · rw [if_neg hex] at h
      by_cases hfi : kvs.any (fun kv => kv.1 == "file")
      · rw [if_pos hfi] at h
        simp only [Bool.and_eq_true] at h
        obtain ⟨⟨hkeys, hpath⟩, hout⟩ := h
        simp only [validate_cmd, if_neg hex, if_pos hfi]
        refine exSeq_ok _ _ ?_ (exSeq_ok _ _ ?_ (exSeq_ok _ _ ?_ ?_))
        · refine (firstErr_ok_iff _ _).mpr ?_
          intro kv hkv
          have hm := mem_of_contains_true (List.all_eq_true.mp hkeys kv hkv)
          simp [chkErr, hm]
        · simp [chkErr, (reqStr_facts _ hpath).1]
        · simp [chkErr, (reqStr_facts _ hpath).2]
        · simp [chkErr, wfOptStr_chk _ hout]
      · rw [if_neg hfi] at h
        by_cases hen : kvs.any (fun kv => kv.1 == "env")
        · rw [if_pos hen] at h
          simp only [Bool.and_eq_true] at h
          obtain ⟨⟨⟨⟨⟨hkeys, hvars⟩, hregex⟩, hone⟩, hout⟩, happ⟩ := h
          simp only [validate_cmd, if_neg hex, if_neg hfi, if_pos hen]
          refine exSeq_ok _ _ ?_ (exSeq_ok _ _ ?_ (exSeq_ok _ _ ?_ (exSeq_ok _ _ ?_
            (exSeq_ok _ _ ?_ ?_))))
          · refine (firstErr_ok_iff _ _).mpr ?_
            intro kv hkv
            have hm := mem_of_contains_true (List.all_eq_true.mp hkeys kv hkv)
            simp [chkErr, hm]
          · simp only [chkErr]
            cases hv2 : truthy (yget (.ydict kvs) "vars") <;>
              cases hr2 : truthy (yget (.ydict kvs) "regex") <;> simp_all
          · by_cases hv : truthy (yget (.ydict kvs) "vars")
            · rw [if_pos hv]
              generalize hV : yget (.ydict kvs) "vars" = V at hvars hv ⊢
              cases V with
              | ylist l =>
                refine exSeq_ok _ _ (by simp [chkErr, isListV]) ?_
                refine (firstErr_ok_iff _ _).mpr ?_
                intro a ha
                have := List.all_eq_true.mp hvars a ha
                simp [chkErr, this]
              | ynull => simp [truthy] at hv
              | ybool b => simp at hvars
              | yint n => simp at hvars
              | ystr s => simp at hvars
              | ydict d => simp at hvars
            · rw [if_neg hv]
          · by_cases hr : truthy (yget (.ydict kvs) "regex")
            · rw [if_pos hr]
              generalize hV : yget (.ydict kvs) "regex" = V at hregex hr ⊢
              cases V with
              | ystr s =>
                refine exSeq_ok _ _ (by simp [chkErr, isStrV]) ?_
                have hs : (s == "") = false := by
                  simpa [truthy] using hr
                have hn : (rc s).isNone = true := by
                  simpa [hs] using hregex
                rw [show rc (strOf (.ystr s)) = none from
                  Option.isNone_iff_eq_none.mp (by simpa [strOf] using hn)]
              | ynull => simp [truthy] at hr
              | ybool b => simp at hregex
              | yint n => simp at hregex
              | ylist l => simp at hregex
              | ydict d => simp at hregex
            · rw [if_neg hr]
          · simp [chkErr, wfOptStr_chk _ hout]
          · simp [chkErr, wfOptBool_chk _ happ]
        · rw [if_neg hen] at h
          by_cases hgl : kvs.any (fun kv => kv.1 == "glob")
          · rw [if_pos hgl] at h
            simp only [Bool.and_eq_true] at h
            obtain ⟨⟨⟨⟨⟨⟨⟨hkeys, hpat⟩, hpath⟩, hregex⟩, hmtime⟩, hrec⟩, hrel⟩, hout⟩ := h
            simp only [validate_cmd, if_neg hex, if_neg hfi, if_neg hen, if_pos hgl]
            refine exSeq_ok _ _ ?_ (exSeq_ok _ _ ?_ (exSeq_ok _ _ ?_ (exSeq_ok _ _ ?_
              (exSeq_ok _ _ ?_ (exSeq_ok _ _ ?_ (exSeq_ok _ _ ?_ (exSeq_ok _ _ ?_
                (exSeq_ok _ _ ?_ ?_))))))))
            · refine (firstErr_ok_iff _ _).mpr ?_
              intro kv hkv
              have hm := mem_of_contains_true (List.all_eq_true.mp hkeys kv hkv)
              simp [chkErr, hm]
            · simp [chkErr, (reqStr_facts _ hpat).1]
            · simp [chkErr, (reqStr_facts _ hpat).2]
            · simp [chkErr, (reqStr_facts _ hpath).1]
            · simp [chkErr, (reqStr_facts _ hpath).2]
            · by_cases hr : truthy (yget (.ydict kvs) "regex")
              · rw [if_pos hr]
                generalize hV : yget (.ydict kvs) "regex" = V at hregex hr ⊢
                cases V with
                | ystr s =>
                  refine exSeq_ok _ _ (by simp [chkErr, isStrV]) ?_
                  have hs : (s == "") = false := by
                    simpa [truthy] using hr
                  have hn : (rc s).isNone = true := by
                    simpa [hs] using hregex
                  rw [show rc (strOf (.ystr s)) = none from
                    Option.isNone_iff_eq_none.mp (by simpa [strOf] using hn)]
                | ynull => simp [truthy] at hr
                | ybool b => simp at hregex
                | yint n => simp at hregex
                | ylist l => simp at hregex
                | ydict d => simp at hregex
              · rw [if_neg hr]
            · simp [chkErr, wfOptBool_chk _ hmtime]
            · simp [chkErr, wfOptBool_chk _ hrec]
            · simp [chkErr, wfOptBool_chk _ hrel]
            · simp [chkErr, wfOptStr_chk _ hout]
          · rw [if_neg hgl] at h
            exact absurd h (by simp)
  | ynull => simp [wellFormedCmd] at h
  | ybool b => simp [wellFormedCmd] at h
  | yint n => simp [wellFormedCmd] at h
  | ystr s => simp [wellFormedCmd] at h
  | ylist l => simp [wellFormedCmd] at h

/-- A well-formed step passes `validate_step`. -/
theorem wf_step_ok (rc : String → Option String) (step : YVal)
    (h : wellFormedStep (fun s => (rc s).isNone) step = true) :
    validate_step rc step = .ok () := by
  cases step with
  | ydict kvs =>
    simp only [wellFormedStep, Bool.and_eq_true] at h
    obtain ⟨⟨⟨⟨⟨hkeys, hname⟩, hcmds⟩, hout⟩, hsys⟩, hport⟩ := h
    simp only [validate_step]
    refine exSeq_ok _ _ ?_ (exSeq_ok _ _ ?_ (exSeq_ok _ _ ?_ (exSeq_ok _ _ ?_
      (exSeq_ok _ _ ?_ (exSeq_ok _ _ ?_ (exSeq_ok _ _ ?_ (exSeq_ok _ _ ?_ ?_)))))))
    · refine (firstErr_ok_iff _ _).mpr ?_
      intro kv hkv
      have hm := mem_of_contains_true (List.all_eq_true.mp hkeys kv hkv)
      simp [chkErr, hm]
    · simp [chkErr, (reqStr_facts _ hname).1]
    · simp [chkErr, (reqStr_facts _ hname).2]
    · generalize hV : yget (.ydict kvs) "cmds" = V at hcmds ⊢
      cases V <;> simp_all [truthy, chkErr]
    · generalize hV : yget (.ydict kvs) "cmds" = V at hcmds ⊢
      cases V <;> simp_all [chkErr, isListV]
    · simp [chkErr, wfOptStr_chk _ hout]
    · by_cases hs : truthy (yget (.ydict kvs) "system")
      · rw [if_pos hs]
        generalize hV : yget (.ydict kvs) "system" = V at hsys hs ⊢
        cases V with
        | ystr s =>
          refine exSeq_ok _ _ (by simp [chkErr, isStrV]) ?_
          have h3 : (s = "Linux" ∨ s = "Windows") ∨ s = "Darwin" := by
            simpa using hsys
          rcases h3 with (h | h) | h <;> simp [chkErr, strOf, h]
        | ynull => simp [truthy] at hs
        | ybool b => simp at hsys
        | yint n => simp at hsys
        | ylist l => simp at hsys
        | ydict d => simp at hsys
      · rw [if_neg hs]
    · simp [chkErr, wfOptBool_chk _ hport]
    · generalize hV : yget (.ydict kvs) "cmds" = V at hcmds ⊢
      cases V with
      | ylist l =>
        simp only [Bool.and_eq_true] at hcmds
        refine (firstErr_ok_iff _ _).mpr ?_
        intro c hc
        exact wf_cmd_ok rc _ c (List.all_eq_true.mp hcmds.2 c hc)
      | ynull => simp at hcmds
      | ybool b => simp at hcmds
      | yint n => simp at hcmds
      | ystr s => simp at hcmds
      | ydict d => simp at hcmds
  | ynull => simp [wellFormedStep] at h
  | ybool b => simp [wellFormedStep] at h
  | yint n => simp [wellFormedStep] at h
  | ystr s => simp [wellFormedStep] at h
  | ylist l => simp [wellFormedStep] at h

/-- A well-formed recipe passes `validate_recipe`. -/
theorem wf_recipe_ok (rc : String → Option String) (recipe : YVal)
    (h : wellFormedRecipe (fun s => (rc s).isNone) recipe = true) :
    validate_recipe rc recipe = .ok () := by
  cases recipe with
  | ydict kvs =>
    simp only [wellFormedRecipe, Bool.and_eq_true] at h
    obtain ⟨⟨⟨⟨hkeys, hdesc⟩, htags⟩, hout⟩, hsteps⟩ := h
    simp only [validate_recipe]
    refine exSeq_ok _ _ ?_ (exSeq_ok _ _ ?_ (exSeq_ok _ _ ?_ (exSeq_ok _ _ ?_
      (exSeq_ok _ _ ?_ (exSeq_ok _ _ ?_ (exSeq_ok _ _ ?_ ?_))))))
    · refine (firstErr_ok_iff _ _).mpr ?_
      intro kv hkv
      have hm := mem_of_contains_true (List.all_eq_true.mp hkeys kv hkv)
      simp [chkErr, hm]
    · simp [chkErr, (reqStr_facts _ hdesc).1]
    · simp [chkErr, (reqStr_facts _ hdesc).2]
    · by_cases htr : truthy (yget (.ydict kvs) "tags")
      · rw [if_pos htr]
        generalize hV : yget (.ydict kvs) "tags" = V at htags htr ⊢
        cases V with
        | ylist l =>
          refine exSeq_ok _ _ (by simp [chkErr, isListV]) ?_
          refine (firstErr_ok_iff _ _).mpr ?_
          intro t ht
          have := List.all_eq_true.mp htags t ht
          simp [chkErr, this]
        | ynull => simp [truthy] at htr
        | ybool b => simp at htags
        | yint n => simp at htags
        | ystr s => simp at htags
        | ydict d => simp at htags
      · rw [if_neg htr]
    · simp [chkErr, wfOptStr_chk _ hout]
    · generalize hV : yget (.ydict kvs) "steps" = V at hsteps ⊢
      cases V <;> simp_all [truthy, chkErr]
    · generalize hV : yget (.ydict kvs) "steps" = V at hsteps ⊢
      cases V <;> simp_all [chkErr, isListV]
    · generalize hV : yget (.ydict kvs) "steps" = V at hsteps ⊢
      cases V with
      | ylist l =>
        simp only [Bool.and_eq_true] at hsteps
        refine (firstErr_ok_iff _ _).mpr ?_
        intro st hst
        exact wf_step_ok rc st (List.all_eq_true.mp hsteps.2 st hst)
      | ynull => simp at hsteps
      | ybool b => simp at hsteps
      | yint n => simp at hsteps
      | ystr s => simp at hsteps
      | ydict d => simp at hsteps
  | ynull => simp [wellFormedRecipe] at h
  | ybool b => simp [wellFormedRecipe] at h
  | yint n => simp [wellFormedRecipe] at h
  | ystr s => simp [wellFormedRecipe] at h
  | ylist l => simp [wellFormedRecipe] at h

/-- Successful command validation forces a dict with only the
discriminated variant's keys. -/
theorem validate_cmd_ok_keys (rc : String → Option String) (sname : String) (cmd : YVal)
    (h : validate_cmd rc sname cmd = .ok ()) :
    ∃ ckvs, cmd = .ydict ckvs ∧
      (ckvs.any (fun kv => kv.1 == "exec") = true →
        ∀ kv ∈ ckvs, kv.1 ∈ cmd_exec_keys) ∧
      (ckvs.any (fun kv => kv.1 == "exec") = false →
        ckvs.any (fun kv => kv.1 == "file") = true →
        ∀ kv ∈ ckvs, kv.1 ∈ cmd_file_keys) ∧
      (ckvs.any (fun kv => kv.1 == "exec") = false →
        ckvs.any (fun kv => kv.1 == "file") = false →
        ckvs.any (fun kv => kv.1 == "env") = true →
        ∀ kv ∈ ckvs, kv.1 ∈ cmd_env_keys) ∧
      (ckvs.any (fun kv => kv.1 == "exec") = false →
        ckvs.any (fun kv => kv.1 == "file") = false →
        ckvs.any (fun kv => kv.1 == "env") = false →
        ckvs.any (fun kv => kv.1 == "glob") = true →
        ∀ kv ∈ ckvs, kv.1 ∈ cmd_glob_keys) := by
  cases cmd with
  | ydict kvs =>
    refine ⟨kvs, rfl, ?_, ?_, ?_, ?_⟩
    · intro hex kv hkv
      simp only [validate_cmd] at h
      rw [if_pos hex] at h
      obtain ⟨_, h1, _⟩ := exbind_ok _ _ _ h
      have h2 := (firstErr_ok_iff _ _).mp h1 kv hkv
      have h3 : cmd_exec_keys.contains kv.1 = true := by
        simpa using (chkErr_ok_iff _ _).mp h2
      exact mem_of_contains_true h3
    · intro hex hfi kv hkv
      simp only [validate_cmd] at h
      rw [if_neg (by simp [hex]), if_pos hfi] at h
      obtain ⟨_, h1, _⟩ := exbind_ok _ _ _ h
      have h2 := (firstErr_ok_iff _ _).mp h1 kv hkv
      have h3 : cmd_file_keys.contains kv.1 = true := by
        simpa using (chkErr_ok_iff _ _).mp h2
      exact mem_of_contains_true h3
    · intro hex hfi hen kv hkv
      simp only [validate_cmd] at h
      rw [if_neg (by simp [hex]), if_neg (by simp [hfi]), if_pos hen] at h
      obtain ⟨_, h1, _⟩ := exbind_ok _ _ _ h
      have h2 := (firstErr_ok_iff _ _).mp h1 kv hkv
      have h3 : cmd_env_keys.contains kv.1 = true := by
        simpa using (chkErr_ok_iff _ _).mp h2
      exact mem_of_contains_true h3
    · intro hex hfi hen hgl kv hkv
      simp only [validate_cmd] at h
      rw [if_neg (by simp [hex]), if_neg (by simp [hfi]), if_neg (by simp [hen]),
        if_pos hgl] at h
      obtain ⟨_, h1, _⟩ := exbind_ok _ _ _ h
      have h2 := (firstErr_ok_iff _ _).mp h1 kv hkv
      have h3 : cmd_glob_keys.contains kv.1 = true := by
        simpa using (chkErr_ok_iff _ _).mp h2
      exact mem_of_contains_true h3
  | ystr s =>
    simp only [validate_cmd] at h
    by_cases hc : (strContains s "exec" || strContains s "file" || strContains s "env" ||
        strContains s "glob")
    · rw [if_pos hc] at h
      simp at h
    · rw [if_neg hc] at h
      simp at h
  | ylist l =>
    simp only [validate_cmd] at h
    by_cases hc : l.any (fun v =>
        match v with
        | .ystr s => s == "exec" || s == "file" || s == "env" || s == "glob"
        | _ => false)
    · rw [if_pos hc] at h
      simp at h
    · rw [if_neg hc] at h
      simp at h
  | ynull => simp [validate_cmd] at h
  | ybool b => simp [validate_cmd] at h
  | yint n => simp [validate_cmd] at h

/-- Successful step validation forces a dict with recognized keys and
validated commands. -/
theorem validate_step_ok_keys (rc : String → Option String) (step : YVal)
    (h : validate_step rc step = .ok ()) :
    ∃ skvs, step = .ydict skvs ∧
      (∀ kv ∈ skvs, kv.1 ∈ step_keys) ∧
      (∀ cmds, yget (.ydict skvs) "cmds" = .ylist cmds →
        ∀ c ∈ cmds, validate_cmd rc (strOf (yget (.ydict skvs) "name")) c = .ok ()) := by
  cases step with
  | ydict kvs =>
    refine ⟨kvs, rfl, ?_, ?_⟩
    · intro kv hkv
      simp only [validate_step] at h
      obtain ⟨_, h1, _⟩ := exbind_ok _ _ _ h
      have h2 := (firstErr_ok_iff _ _).mp h1 kv hkv
      have h3 : step_keys.contains kv.1 = true := by
        simpa using (chkErr_ok_iff _ _).mp h2
      exact mem_of_contains_true h3
    · intro cmds hcm c hc
      simp only [validate_step] at h
      obtain ⟨_, _, h⟩ := exbind_ok _ _ _ h
      obtain ⟨_, _, h⟩ := exbind_ok _ _ _ h
      obtain ⟨_, _, h⟩ := exbind_ok _ _ _ h
      obtain ⟨_, _, h⟩ := exbind_ok _ _ _ h
      obtain ⟨_, _, h⟩ := exbind_ok _ _ _ h
      obtain ⟨_, _, h⟩ := exbind_ok _ _ _ h
      obtain ⟨_, _, h⟩ := exbind_ok _ _ _ h
      obtain ⟨_, _, h⟩ := exbind_ok _ _ _ h
      rw [hcm] at h
      exact (firstErr_ok_iff _ _).mp h c hc
  | ynull => simp [validate_step] at h
  | ybool b => simp [validate_step] at h
  | yint n => simp [validate_step] at h
  | ystr s => simp [validate_step] at h
  | ylist l => simp [validate_step] at h

/-- Successful recipe validation forces recognized top-level keys and
validated steps. -/
theorem validate_recipe_ok_keys (rc : String → Option String) (kvs : List (String × YVal))
    (h : validate_recipe rc (.ydict kvs) = .ok ()) :
    (∀ kv ∈ kvs, kv.1 ∈ recipe_keys) ∧
    (∀ steps, yget (.ydict kvs) "steps" = .ylist steps →
      ∀ st ∈ steps, validate_step rc st = .ok ()) := by
  constructor
  · intro kv hkv
    simp only [validate_recipe] at h
    obtain ⟨_, h1, _⟩ := exbind_ok _ _ _ h
    have h2 := (firstErr_ok_iff _ _).mp h1 kv hkv
    have h3 : recipe_keys.contains kv.1 = true := by
      simpa using (chkErr_ok_iff _ _).mp h2
    exact mem_of_contains_true h3
  · intro steps hst st hmem
    simp only [validate_recipe] at h
    obtain ⟨_, _, h⟩ := exbind_ok _ _ _ h
    obtain ⟨_, _, h⟩ := exbind_ok _ _ _ h
    obtain ⟨_, _, h⟩ := exbind_ok _ _ _ h
    obtain ⟨_, _, h⟩ := exbind_ok _ _ _ h
    obtain ⟨_, _, h⟩ := exbind_ok _ _ _ h
    obtain ⟨_, _, h⟩ := exbind_ok _ _ _ h
    obtain ⟨_, _, h⟩ := exbind_ok _ _ _ h
    rw [hst] at h
    exact (firstErr_ok_iff _ _).mp h st hmem

/-- An unknown top-level key is reported first, by name. -/
theorem validate_topkey_err (rc : String → Option String) (kvs : List (String × YVal))
    (kv : String × YVal)
    (h : kvs.find? (fun e => !recipe_keys.contains e.1) = some kv) :
    validate_recipe rc (.ydict kvs) = .error (msgUnknownRecipeKey kv.1) := by
  have hscan := firstErr_chk_error kvs (fun e => recipe_keys.contains e.1)
    (fun e => msgUnknownRecipeKey e.1) kv h
  simp only [validate_recipe]
  exact exSeq_err _ _ _ hscan

/-- An unknown step key is rejected with a message naming it. -/
theorem validate_stepkey_err (rc : String → Option String) (k : String)
    (hk : k ∉ step_keys) :
    validate_recipe rc (recipeWithStepKey k) = .error (msgUnknownStepKey k) := by
  have h1 : ¬ k = "name" := fun h => hk (by simp [step_keys, h])
  have h2 : ¬ k = "cmds" := fun h => hk (by simp [step_keys, h])
  have h3 : ¬ k = "output" := fun h => hk (by simp [step_keys, h])
  have h4 : ¬ k = "system" := fun h => hk (by simp [step_keys, h])
  have h5 : ¬ k = "port" := fun h => hk (by simp [step_keys, h])
  simp [validate_recipe, recipeWithStepKey, stepWithKey, validate_step, sampleCmd,
    firstErr, chkErr, yget, truthy, recipe_keys, step_keys, isStrV, isListV, strOf,
    h1, h2, h3, h4, h5, Bind.bind, Except.bind]

/-- An unknown exec argument is rejected with a message naming it and the
allowed keys. -/
theorem validate_execkey_err (rc : String → Option String) (k : String)
    (hk : k ∉ cmd_exec_keys) :
    validate_recipe rc (recipeWithCmd (execCmdWithKey k)) =
      .error (msgUnknownArg "exec" k "main" cmd_exec_keys) := by
  have h1 : ¬ k = "exec" := fun h => hk (by simp [cmd_exec_keys, h])
  have h2 : ¬ k = "cmd" := fun h => hk (by simp [cmd_exec_keys, h])
  have h3 : ¬ k = "output" := fun h => hk (by simp [cmd_exec_keys, h])
  have h4 : ¬ k = "stderr" := fun h => hk (by simp [cmd_exec_keys, h])
  have h5 : ¬ k = "timeout" := fun h => hk (by simp [cmd_exec_keys, h])
  have h6 : ¬ k = "append" := fun h => hk (by simp [cmd_exec_keys, h])
  simp [validate_recipe, recipeWithCmd, execCmdWithKey, validate_step, validate_cmd,
    firstErr, chkErr, yget, truthy, recipe_keys, step_keys, cmd_exec_keys, isStrV,
    isListV, strOf, h1, h2, h3, h4, h5, h6, Bind.bind, Except.bind]

/-- An unknown file argument is rejected with a message naming it and the
allowed keys. -/
theorem validate_filekey_err (rc : String → Option String) (k : String)
    (hk : k ∉ cmd_file_keys) (hex : k ≠ "exec") :
    validate_recipe rc (recipeWithCmd (fileCmdWithKey k)) =
      .error (msgUnknownArg "file" k "main" cmd_file_keys) := by
  have h1 : ¬ k = "file" := fun h => hk (by simp [cmd_file_keys, h])
  have h2 : ¬ k = "path" := fun h => hk (by simp [cmd_file_keys, h])
  have h3 : ¬ k = "output" := fun h => hk (by simp [cmd_file_keys, h])
  simp [validate_recipe, recipeWithCmd, fileCmdWithKey, validate_step, validate_cmd,
    firstErr, chkErr, yget, truthy, recipe_keys, step_keys, cmd_file_keys, isStrV,
    isListV, strOf, h1, h2, h3, hex, Bind.bind, Except.bind]

/-- An unknown env argument is rejected with a message naming it and the
allowed keys. -/
theorem validate_envkey_err (rc : String → Option String) (k : String)
    (hk : k ∉ cmd_env_keys) (hex : k ≠ "exec") (hfi : k ≠ "file") :
    validate_recipe rc (recipeWithCmd (envCmdWithKey k)) =
      .error (msgUnknownArg "env" k "main" cmd_env_keys) := by
  have h1 : ¬ k = "env" := fun h => hk (by simp [cmd_env_keys, h])
  have h2 : ¬ k = "vars" := fun h => hk (by simp [cmd_env_keys, h])
  have h3 : ¬ k = "regex" := fun h => hk (by simp [cmd_env_keys, h])
  have h4 : ¬ k = "output" := fun h => hk (by simp [cmd_env_keys, h])
  have h5 : ¬ k = "append" := fun h => hk (by simp [cmd_env_keys, h])
  simp [validate_recipe, recipeWithCmd, envCmdWithKey, validate_step, validate_cmd,
    firstErr, chkErr, yget, truthy, recipe_keys, step_keys, cmd_env_keys, isStrV,
    isListV, strOf, h1, h2, h3, h4, h5, hex, hfi, Bind.bind, Except.bind]

/-- An unknown glob argument is rejected with a message naming it and the
allowed keys. -/
theorem validate_globkey_err (rc : String → Option String) (k : String)
    (hk : k ∉ cmd_glob_keys) (hex : k ≠ "exec") (hfi : k ≠ "file") (hen : k ≠ "env") :
    validate_recipe rc (recipeWithCmd (globCmdWithKey k)) =
      .error (msgUnknownArg "glob" k "main" cmd_glob_keys) := by
  have h1 : ¬ k = "glob" := fun h => hk (by simp [cmd_glob_keys, h])
  have h2 : ¬ k = "pattern" := fun h => hk (by simp [cmd_glob_keys, h])
  have h3 : ¬ k = "path" := fun h => hk (by simp [cmd_glob_keys, h])
  have h4 : ¬ k = "regex" := fun h => hk (by simp [cmd_glob_keys, h])
  have h5 : ¬ k = "mtime" := fun h => hk (by simp [cmd_glob_keys, h])
  have h6 : ¬ k = "recursive" := fun h => hk (by simp [cmd_glob_keys, h])
  have h7 : ¬ k = "relative" := fun h => hk (by simp [cmd_glob_keys, h])
  have h8 : ¬ k = "output" := fun h => hk (by simp [cmd_glob_keys, h])
  simp [validate_recipe, recipeWithCmd, globCmdWithKey, validate_step, validate_cmd,
    firstErr, chkErr, yget, truthy, recipe_keys, step_keys, cmd_glob_keys, isStrV,
    isListV, strOf, h1, h2, h3, h4, h5, h6, h7, h8, hex, hfi, hen, Bind.bind, Except.bind]

/-- **C6.**  Validation rejects any unrecognized key — at the recipe top
level (first offending key, message naming it), at the step level, and
inside any command variant's payload (message naming the key and listing
the variant's allowed keys) — and conversely a validation success forces
every key at every level to be recognized; a well-formed recipe (in the
specification's data-model sense) with a description and non-empty steps
validates successfully. -/
theorem claim_C6_validation :
    (∀ (rc : String → Option String) (kvs : List (String × YVal)) (kv : String × YVal),
        kvs.find? (fun e => !recipe_keys.contains e.1) = some kv →
        validate_recipe rc (.ydict kvs) = .error (msgUnknownRecipeKey kv.1) ∧
        ∃ pre post, msgUnknownRecipeKey kv.1 = pre ++ kv.1 ++ post) ∧
    (∀ (rc : String → Option String) (k : String), k ∉ step_keys →
        validate_recipe rc (recipeWithStepKey k) = .error (msgUnknownStepKey k) ∧
        ∃ pre post, msgUnknownStepKey k = pre ++ k ++ post) ∧
    (∀ (rc : String → Option String) (k : String), k ∉ cmd_exec_keys →
        validate_recipe rc (recipeWithCmd (execCmdWithKey k)) =
          .error (msgUnknownArg "exec" k "main" cmd_exec_keys)) ∧
    (∀ (rc : String → Option String) (k : String), k ∉ cmd_file_keys → k ≠ "exec" →
        validate_recipe rc (recipeWithCmd (fileCmdWithKey k)) =
          .error (msgUnknownArg "file" k "main" cmd_file_keys)) ∧
    (∀ (rc : String → Option String) (k : String), k ∉ cmd_env_keys → k ≠ "exec" →
        k ≠ "file" →
        validate_recipe rc (recipeWithCmd (envCmdWithKey k)) =
          .error (msgUnknownArg "env" k "main" cmd_env_keys)) ∧
    (∀ (rc : String → Option String) (k : String), k ∉ cmd_glob_keys → k ≠ "exec" →
        k ≠ "file" → k ≠ "env" →
        validate_recipe rc (recipeWithCmd (globCmdWithKey k)) =
          .error (msgUnknownArg "glob" k "main" cmd_glob_keys)) ∧
    (∀ (variant k sname : String) (keys : List String),
        (∃ pre post, msgUnknownArg variant k sname keys = pre ++ k ++ post) ∧
        (∃ pre post, msgUnknownArg variant k sname keys = pre ++ pyListRepr keys ++ post)) ∧
    (∀ (rc : String → Option String) (recipe : YVal),
        wellFormedRecipe (fun s => (rc s).isNone) recipe = true →
        validate_recipe rc recipe = .ok ()) ∧
    (∀ (rc : String → Option String) (kvs : List (String × YVal)),
        validate_recipe rc (.ydict kvs) = .ok () →
        (∀ kv ∈ kvs, kv.1 ∈ recipe_keys) ∧
        (∀ steps, yget (.ydict kvs) "steps" = .ylist steps →
          ∀ st ∈ steps, ∃ skvs, st = .ydict skvs ∧
            (∀ kv ∈ skvs, kv.1 ∈ step_keys) ∧
            (∀ cmds, yget (.ydict skvs) "cmds" = .ylist cmds →
              ∀ c ∈ cmds, ∃ ckvs, c = .ydict ckvs ∧
                (ckvs.any (fun kv => kv.1 == "exec") = true →
                  ∀ kv ∈ ckvs, kv.1 ∈ cmd_exec_keys) ∧
                (ckvs.any (fun kv => kv.1 == "exec") = false →
                  ckvs.any (fun kv => kv.1 == "file") = true →
                  ∀ kv ∈ ckvs, kv.1 ∈ cmd_file_keys) ∧
                (ckvs.any (fun kv => kv.1 == "exec") = false →
                  ckvs.any (fun kv => kv.1 == "file") = false →
                  ckvs.any (fun kv => kv.1 == "env") = true →
                  ∀ kv ∈ ckvs, kv.1 ∈ cmd_env_keys) ∧
                (ckvs.any (fun kv => kv.1 == "exec") = false →
                  ckvs.any (fun kv => kv.1 == "file") = false →
                  ckvs.any (fun kv => kv.1 == "env") = false →
                  ckvs.any (fun kv => kv.1 == "glob") = true →
                  ∀ kv ∈ ckvs, kv.1 ∈ cmd_glob_keys)))) := by
  refine ⟨?_, ?_, validate_execkey_err, validate_filekey_err, validate_envkey_err,
    validate_globkey_err, ?_, wf_recipe_ok, ?_⟩
  · intro rc kvs kv h
    refine ⟨validate_topkey_err rc kvs kv h, "Unknown recipe key \"",
      "\", expecting \"" ++ pyListRepr recipe_keys ++ "\"", ?_⟩
    simp [msgUnknownRecipeKey, String.append_assoc]
  · intro rc k hk
    refine ⟨validate_stepkey_err rc k hk, "Unknown recipe step key \"",
      "\", expecting \"" ++ pyListRepr step_keys ++ "\"", ?_⟩
    simp [msgUnknownStepKey, String.append_assoc]
  · intro variant k sname keys
    constructor
    · refine ⟨"Unknown \"" ++ variant ++ "\" command argument \"",
        "\" in step \"" ++ sname ++ "\", expecting \"" ++ pyListRepr keys ++ "\"", ?_⟩
      simp [msgUnknownArg, String.append_assoc]
    · refine ⟨"Unknown \"" ++ variant ++ "\" command argument \"" ++ k ++
        "\" in step \"" ++ sname ++ "\", expecting \"", "\"", ?_⟩
      simp [msgUnknownArg, String.append_assoc]
  · intro rc kvs h
    obtain ⟨htop, hsteps⟩ := validate_recipe_ok_keys rc kvs h
    refine ⟨htop, ?_⟩
    intro steps hst st hmem
    obtain ⟨skvs, hskvs, hskeys, hscmds⟩ :=
      validate_step_ok_keys rc st (hsteps steps hst st hmem)
    refine ⟨skvs, hskvs, hskeys, ?_⟩
    intro cmds hcm c hc
    obtain ⟨ckvs, hckvs, he1, he2, he3, he4⟩ :=
      validate_cmd_ok_keys rc _ c (hscmds cmds hcm c hc)
    exact ⟨ckvs, hckvs, he1, he2, he3, he4⟩

/-- Witness for C6: the sample recipe validates; an unknown top-level,
step-level, and exec-payload key are each rejected by name. -/
theorem claim_C6_validation_witness :
    validate_recipe (fun _ => none) sampleRecipe = .ok () ∧
    (validate_recipe (fun _ => none) (recipeWithStepKey "bogus") =
      .error (msgUnknownStepKey "bogus") ∧
      ∃ pre post, msgUnknownStepKey "bogus" = pre ++ "bogus" ++ post) ∧
    validate_recipe (fun _ => none) (recipeWithCmd (execCmdWithKey "zzz")) =
      .error (msgUnknownArg "exec" "zzz" "main" cmd_exec_keys) :=
  ⟨claim_C6_validation.2.2.2.2.2.2.2.1 (fun _ => none) sampleRecipe rfl,
   claim_C6_validation.2.1 (fun _ => none) "bogus" (by decide),
   claim_C6_validation.2.2.1 (fun _ => none) "zzz" (by decide)⟩

/-- **C7 (counterexample).**  An exec command whose `timeout` is the
negative integer `-5` passes validation: the validator checks only
`isinstance(timeout, int)`, never positivity, so the claim that any
non-positive timeout is rejected is false. -/
theorem claim_C7_counterexample :
    validate_recipe (fun _ => none) (recipeWithCmd (execCmdTimeout (.yint (-5)))) =
      .ok () := rfl

/-- **C7 (amended).**  Validation of an exec `timeout` only enforces the
`int` type (Python `bool` included) on a present, truthy value: every
non-zero integer — positive or negative — passes, a zero timeout is
falsy and skipped, and only a truthy non-integer value is rejected (with
the type-error message). -/
theorem claim_C7_timeout_validation :
    (∀ (rc : String → Option String) (n : Int), n ≠ 0 →
        validate_recipe rc (recipeWithCmd (execCmdTimeout (.yint n))) = .ok ()) ∧
    (∀ (rc : String → Option String),
        validate_recipe rc (recipeWithCmd (execCmdTimeout (.yint 0))) = .ok ()) ∧
    (∀ (rc : String → Option String) (t : YVal), truthy t = true → isIntV t = false →
        validate_recipe rc (recipeWithCmd (execCmdTimeout t)) =
          .error (msgArgType "timeout" "exec" "main" "int")) := by
  refine ⟨?_, ?_, ?_⟩
  · intro rc n hn0
    have hn : (n != 0) = true := by simpa using hn0
    simp [validate_recipe, recipeWithCmd, execCmdTimeout, validate_step, validate_cmd,
      firstErr, chkErr, yget, truthy, recipe_keys, step_keys, cmd_exec_keys, isStrV,
      isListV, isIntV, strOf, hn, Bind.bind, Except.bind]
  · intro rc
    rfl
  · intro rc t ht hi
    simp only [truthy] at ht
    simp only [isIntV] at hi
    simp [validate_recipe, recipeWithCmd, execCmdTimeout, validate_step, validate_cmd,
      firstErr, chkErr, yget, truthy, recipe_keys, step_keys, cmd_exec_keys, isStrV,
      isListV, isIntV, strOf, ht, hi, Bind.bind, Except.bind]

/-- Witness for C7 (amended): concrete timeouts `-5` (accepted) and a
string (rejected). -/
theorem claim_C7_timeout_validation_witness :
    validate_recipe (fun _ => none) (recipeWithCmd (execCmdTimeout (.yint (-5)))) =
      .ok () ∧
    validate_recipe (fun _ => none) (recipeWithCmd (execCmdTimeout (.ystr "soon"))) =
      .error (msgArgType "timeout" "exec" "main" "int") :=
  ⟨claim_C7_timeout_validation.1 (fun _ => none) (-5) (by decide),
   claim_C7_timeout_validation.2.2 (fun _ => none) (.ystr "soon") (by decide) (by decide)⟩

end Diag
